import Mathlib

/-!
# Task store of `gestor_tareas.js`

Shallow embedding of the record store of `src/gestor_tareas.js`: the `Tarea`
record, the interactive operations `agregarTarea`, `editarTarea`,
`borrarTarea`, the selections made by `listarTareas` and `buscarTarea`, the
two number readers `parseInt` / `parseFloat` that the operations apply to
the answers of the user, and the persistence functions `guardarTareas` and
`cargarTareas` with the JSON text they write and read.

Conventions of the embedding.

* The global array `tareas` is passed explicitly: every operation takes the
  collection before the call and returns the collection after it.
* The answers given to `preguntar` are arguments of the operation, in the
  order in which the source asks for them.
* `new Date().toLocaleString('es-AR')` is the argument `ahora`.
* `String.prototype.toLowerCase` is the argument `lower`; `toLowerCaseASCII`
  is its restriction to ASCII letters, used to evaluate concrete inputs.
* Identifiers, states and difficulties are JavaScript numbers that hold
  integers; they are embedded as `Int`. The one arithmetic operation on them,
  the `+ 1` of line 122, is the addition of doubles: `sumaUno` rounds the
  exact sum to the nearest double, so it is exact up to `2^53` and not
  beyond.
* The cost is the JavaScript number read by `parseFloat`; it is embedded as
  `JSNumber`, whose finite values carry the exact decimal value of the
  literal (the rounding to a binary double is not part of the embedding).
* The file `tareas.json` is explicit state: its content, or `none` when it
  does not exist. `writeFileSync` and `readFileSync` either succeed or throw,
  as the arguments `escrituraFalla` and `lecturaFalla` tell.
* `JSON.stringify(value, null, 2)` and `JSON.parse` are embedded from their
  definition in ECMAScript, on the values `Valor` that JSON text denotes.
  Texts are `String`s, sequences of Unicode characters.
-/

namespace GestorTareas

/-! ## Constants -/

/-- Values of `Estado` (lines 9-14). -/
def Estado.PENDIENTE : Int := 1
def Estado.EN_CURSO : Int := 2
def Estado.TERMINADA : Int := 3
def Estado.CANCELADA : Int := 4

/-- Values of `Dificultad` (lines 16-20). -/
def Dificultad.FACIL : Int := 1
def Dificultad.MEDIO : Int := 2
def Dificultad.DIFICIL : Int := 3

/-! ## JavaScript numbers read from text -/

/-- A JavaScript number as produced by `parseFloat`: `NaN`, an infinity, or a
finite value (kept as the exact rational value of the decimal literal). -/
inductive JSNumber where
  | nan : JSNumber
  | inf (neg : Bool) : JSNumber
  | fin (q : ℚ) : JSNumber
  deriving DecidableEq

/-- Truthiness of a number in `x || y`: `NaN`, `+0` and `-0` are falsy. -/
def JSNumber.truthy : JSNumber → Bool
  | .nan => false
  | .inf _ => true
  | .fin q => decide (q ≠ 0)

/-- The number is finite (neither `NaN` nor an infinity). -/
def JSNumber.esFinito : JSNumber → Bool
  | .fin _ => true
  | _ => false

/-- The number is greater than or equal to zero (`NaN` is not). -/
def JSNumber.noNegativo : JSNumber → Bool
  | .nan => false
  | .inf neg => !neg
  | .fin q => decide (0 ≤ q)

/-- Code points removed by `TrimString`: ECMAScript `WhiteSpace` and
`LineTerminator`. -/
def esEspacio (c : Char) : Bool :=
  let n := c.toNat
  n == 0x09 || n == 0x0A || n == 0x0B || n == 0x0C || n == 0x0D || n == 0x20 ||
  n == 0xA0 || n == 0x1680 || (0x2000 ≤ n && n ≤ 0x200A) || n == 0x2028 ||
  n == 0x2029 || n == 0x202F || n == 0x205F || n == 0x3000 || n == 0xFEFF

/-- Leading white space removed, as `parseInt` and `parseFloat` do first. -/
def trimStart (s : List Char) : List Char := s.dropWhile esEspacio

/-- Value of a digit in radix 16 (`0-9`, `a-f`, `A-F`), if it is one. -/
def valorDigito (c : Char) : Option Nat :=
  let n := c.toNat
  if 48 ≤ n ∧ n ≤ 57 then some (n - 48)
  else if 97 ≤ n ∧ n ≤ 102 then some (n - 87)
  else if 65 ≤ n ∧ n ≤ 70 then some (n - 55)
  else none

/-- The character is a digit of radix `r`. -/
def esDigito (r : Nat) (c : Char) : Bool :=
  match valorDigito c with
  | some v => decide (v < r)
  | none => false

/-- Value in radix `r` of a run of digits. -/
def valorDigitos (r : Nat) (ds : List Char) : Nat :=
  ds.foldl (fun n c => r * n + (valorDigito c).getD 0) 0

/-- Sign read at the head of a trimmed text, and the text after it. -/
def leerSigno : List Char → Bool × List Char
  | '-' :: r => (true, r)
  | '+' :: r => (false, r)
  | s => (false, s)

/-- The built-in `parseInt(text)` with no radix: white space, sign, optional
`0x`/`0X`, then the longest run of digits; `none` stands for `NaN`. -/
def parseInt (texto : String) : Option Int :=
  let (neg, s) := leerSigno (trimStart texto.data)
  let (r, s) :=
    match s with
    | '0' :: 'x' :: t => (16, t)
    | '0' :: 'X' :: t => (16, t)
    | _ => (10, s)
  let z := s.takeWhile (esDigito r)
  if z.isEmpty then none
  else
    let m : Int := (valorDigitos r z : Nat)
    some (if neg then -m else m)

/-- Exponent part `e`/`E`, optional sign, digits; `0` when it is absent or
not well formed (the literal then ends before it). -/
def leerExponente : List Char → Int
  | c :: r =>
    if c = 'e' ∨ c = 'E' then
      let (neg, d) := leerSigno r
      let z := d.takeWhile (esDigito 10)
      if z.isEmpty then 0
      else if neg then -((valorDigitos 10 z : Nat) : Int) else ((valorDigitos 10 z : Nat) : Int)
    else 0
  | [] => 0

/-- The value `m * 10^e` as a rational. -/
def escalar (m : Int) (e : Int) : ℚ :=
  if 0 ≤ e then ((m * 10 ^ e.toNat : Int) : ℚ) else mkRat m (10 ^ (-e).toNat)

/-- The built-in `parseFloat(text)`: white space, then the longest prefix that
is a `StrDecimalLiteral` (sign, `Infinity` or digits with an optional
fraction and exponent); `NaN` when there is none. -/
def parseFloat (texto : String) : JSNumber :=
  let (neg, s) := leerSigno (trimStart texto.data)
  if "Infinity".data.isPrefixOf s then .inf neg
  else
    let ent := s.takeWhile (esDigito 10)
    let r1 := s.dropWhile (esDigito 10)
    let (frac, r2) :=
      match r1 with
      | '.' :: t => (t.takeWhile (esDigito 10), t.dropWhile (esDigito 10))
      | _ => ([], r1)
    if ent.isEmpty && frac.isEmpty then .nan
    else
      let m : Int := (valorDigitos 10 (ent ++ frac) : Nat)
      .fin (escalar (if neg then -m else m) (leerExponente r2 - frac.length))

/-! ## The record and the operations -/

/-- The record built by `class Tarea` (lines 23-36). -/
structure Tarea where
  id : Int
  titulo : String
  descripcion : String
  estado : Int
  dificultad : Int
  fechaCreacion : String
  fechaVencimiento : String
  fechaEdicion : String
  costo : JSNumber
  deriving DecidableEq

/-- The expression `s || ''` on a string: the empty string is falsy. -/
def oVacio (s : String) : String := if s.isEmpty then "" else s

/-- The constructor of `Tarea` (lines 24-35); `fechaActual` is the one value
of `new Date().toLocaleString('es-AR')` read at line 25. -/
def nuevaTarea (fechaActual : String) (id : Int) (titulo descripcion fechaVencimiento : String)
    (costo : JSNumber) (dificultad : Int) : Tarea :=
  { id := id
    titulo := titulo
    descripcion := oVacio descripcion
    estado := Estado.PENDIENTE
    dificultad := dificultad
    fechaCreacion := fechaActual
    fechaVencimiento := oVacio fechaVencimiento
    fechaEdicion := fechaActual
    costo := costo }

/-- The built-in `Math.max(x, ...xs)` on at least one argument. -/
def mathMax (x : Int) (xs : List Int) : Int := xs.foldl max x

/-- Spacing of the doubles around a natural number `a` that is not below
`2^53`: the power of two `u` with `2^52 ≤ a / u < 2^53` (the first argument
bounds the number of halvings). -/
def espaciado : Nat → Nat → Nat
  | 0, _ => 1
  | f + 1, a => if a < 2 ^ 53 then 1 else 2 * espaciado f (a / 2)

/-- The double nearest to the integer `n`, ties going to the even
significand: the value that an arithmetic operation with exact result `n`
returns. Every integer up to `2^53` in absolute value is a double. -/
def redondear (n : Int) : Int :=
  let a := n.natAbs
  if a ≤ 2 ^ 53 then n
  else
    let u := espaciado a a
    let q := a / u
    let r := a % u
    let q := if 2 * r < u then q else if u < 2 * r then q + 1 else if q % 2 = 0 then q else q + 1
    if n < 0 then -((q * u : Nat) : Int) else ((q * u : Nat) : Int)

/-- The expression `x + 1` on an integer-valued double. -/
def sumaUno (x : Int) : Int := redondear (x + 1)

/-- Line 122: `tareas.length > 0 ? Math.max(...tareas.map(t => t.id)) + 1 : 1`. -/
def nuevoId (tareas : List Tarea) : Int :=
  match tareas.map (fun t => t.id) with
  | [] => 1
  | x :: xs => sumaUno (mathMax x xs)

/-- Line 117: `parseFloat(costoStr) || 0.0`. -/
def leerCosto (costoStr : String) : JSNumber :=
  let c := parseFloat costoStr
  if c.truthy then c else .fin 0

/-- Lines 119-120: `parseInt` of the answer, `Dificultad.FACIL` when it is
`NaN`, below 1 or above 3. -/
def leerDificultad (difStr : String) : Int :=
  match parseInt difStr with
  | none => Dificultad.FACIL
  | some dif => if dif < 1 ∨ dif > 3 then Dificultad.FACIL else dif

/-- The function `agregarTarea` (lines 111-128): the five answers of the user
in the order asked, the collection before and the collection after. -/
def agregarTarea (ahora : String) (titulo descripcion fechaVencimiento costoStr difStr : String)
    (tareas : List Tarea) : List Tarea :=
  let costo := leerCosto costoStr
  let dif := leerDificultad difStr
  let id := nuevoId tareas
  let nueva := nuevaTarea ahora id titulo descripcion fechaVencimiento costo dif
  tareas ++ [nueva]

/-- The built-in `Array.prototype.findIndex`; `none` stands for `-1`. -/
def findIndex (p : Tarea → Bool) : List Tarea → Option Nat
  | [] => none
  | t :: ts => if p t then some 0 else (findIndex p ts).map (· + 1)

/-- Lines 142-153 on the task found: a non-empty title and a non-empty
description replace the old ones, a state between 1 and 4 replaces the old
one, and the edit date is set. -/
def editarCampos (ahora : String) (nuevoTitulo nuevaDesc estadoStr : String) (tarea : Tarea) :
    Tarea :=
  let tarea := if nuevoTitulo.isEmpty then tarea else { tarea with titulo := nuevoTitulo }
  let tarea := if nuevaDesc.isEmpty then tarea else { tarea with descripcion := nuevaDesc }
  let tarea :=
    match parseInt estadoStr with
    | some nuevoEstado =>
      if nuevoEstado ≥ 1 ∧ nuevoEstado ≤ 4 then { tarea with estado := nuevoEstado } else tarea
    | none => tarea
  { tarea with fechaEdicion := ahora }

/-- The function `editarTarea` (lines 131-156). -/
def editarTarea (ahora : String) (id : Int) (nuevoTitulo nuevaDesc estadoStr : String)
    (tareas : List Tarea) : List Tarea :=
  match findIndex (fun t => t.id == id) tareas with
  | none => tareas
  | some tareaIndex => tareas.modify (editarCampos ahora nuevoTitulo nuevaDesc estadoStr) tareaIndex

/-- The function `borrarTarea` (lines 159-177); `lower` is `toLowerCase`. -/
def borrarTarea (lower : String → String) (id : Int) (confirmacion : String)
    (tareas : List Tarea) : List Tarea :=
  match findIndex (fun t => t.id == id) tareas with
  | none => tareas
  | some indice => if lower confirmacion == "s" then tareas.eraseIdx indice else tareas

/-- Line 182 of `listarTareas`: the tasks shown for the filter. -/
def tareasFiltradas (filtro : Int) (tareas : List Tarea) : List Tarea :=
  if filtro == 0 then tareas else tareas.filter (fun t => t.estado == filtro)

/-- The text `p` starts the text `s`. -/
def empiezaCon : List Char → List Char → Bool
  | _, [] => true
  | [], _ :: _ => false
  | c :: s, d :: p => c == d && empiezaCon s p

/-- The text `p` occurs in the text `s` at some position. -/
def ocurreEn : List Char → List Char → Bool
  | [], p => p.isEmpty
  | c :: s, p => empiezaCon (c :: s) p || ocurreEn s p

/-- The built-in `String.prototype.includes`. -/
def includes (s p : String) : Bool := ocurreEn s.data p.data

/-- Line 213 of `buscarTarea`: the tasks found for the word; `lower` is
`toLowerCase`. -/
def buscarTarea (lower : String → String) (palabra : String) (tareas : List Tarea) : List Tarea :=
  tareas.filter (fun t => includes (lower t.titulo) (lower palabra))

/-- The map `toLowerCase` on the letters `A`-`Z`, other characters kept. -/
def toLowerCaseASCII (s : String) : String :=
  String.mk (s.data.map (fun c => if 65 ≤ c.toNat ∧ c.toNat ≤ 90 then Char.ofNat (c.toNat + 32) else c))

/-- Every character of the text is an ASCII character; on such texts
`toLowerCase` is `toLowerCaseASCII`. -/
def esASCII (s : String) : Bool := s.data.all (fun c => decide (c.toNat < 128))

/-- The answers of one run of `agregarTarea` and the date read in it. -/
structure RespuestasAgregar where
  ahora : String
  titulo : String
  descripcion : String
  fechaVencimiento : String
  costoStr : String
  difStr : String

/-- Runs of `agregarTarea` one after another, the first answers first. -/
def agregarTodas : List RespuestasAgregar → List Tarea → List Tarea
  | [], tareas => tareas
  | r :: rs, tareas =>
    agregarTodas rs
      (agregarTarea r.ahora r.titulo r.descripcion r.fechaVencimiento r.costoStr r.difStr tareas)

/-- One mutating choice of `menuPrincipal` (lines 248-258) with the answers
given in it: `3` add, `4` edit, `5` delete. -/
inductive Operacion where
  | agregar (r : RespuestasAgregar)
  | editar (ahora : String) (id : Int) (nuevoTitulo nuevaDesc estadoStr : String)
  | borrar (id : Int) (confirmacion : String)

/-- The collection after one operation. -/
def ejecutar (lower : String → String) : Operacion → List Tarea → List Tarea
  | .agregar r, tareas =>
    agregarTarea r.ahora r.titulo r.descripcion r.fechaVencimiento r.costoStr r.difStr tareas
  | .editar ahora id nuevoTitulo nuevaDesc estadoStr, tareas =>
    editarTarea ahora id nuevoTitulo nuevaDesc estadoStr tareas
  | .borrar id confirmacion, tareas => borrarTarea lower id confirmacion tareas

/-- The collection after a sequence of operations, the first one first. -/
def ejecutarTodas (lower : String → String) : List Operacion → List Tarea → List Tarea
  | [], tareas => tareas
  | op :: ops, tareas => ejecutarTodas lower ops (ejecutar lower op tareas)

/-- The identifiers given by the adds of a sequence of operations, in the
order of the adds. -/
def idsAsignados (lower : String → String) : List Operacion → List Tarea → List Int
  | [], _ => []
  | .agregar r :: ops, tareas =>
    nuevoId tareas :: idsAsignados lower ops (ejecutar lower (.agregar r) tareas)
  | op :: ops, tareas => idsAsignados lower ops (ejecutar lower op tareas)

/-! ## Persistence: `JSON.stringify`, `JSON.parse` and the file -/

/-- A JavaScript value that JSON text denotes: the values that `JSON.parse`
returns and that `JSON.stringify` is given here. The fields of an object are
in the order of their enumeration. -/
inductive Valor where
  | nulo
  | bool (b : Bool)
  | num (x : JSNumber)
  | str (s : String)
  | arr (xs : List Valor)
  | obj (campos : List (String × Valor))

/-- The decimal digit `d` as a character. -/
def cifra (d : Nat) : Char := Char.ofNat (48 + d)

/-- The decimal digits of `n`, most significant first (the first argument
bounds the number of digits). -/
def cifras : Nat → Nat → List Char
  | 0, _ => []
  | f + 1, n => if n < 10 then [cifra n] else cifras f (n / 10) ++ [cifra (n % 10)]

/-- The decimal numeral of `n`. -/
def decimales (n : Nat) : List Char := cifras (n + 1) n

/-- The least `j` from `j₀` on with `d ∣ 10^j` (the first argument bounds the
search). -/
def exponenteDecimal : Nat → Nat → Nat → Option Nat
  | 0, _, _ => none
  | f + 1, j, d => if 10 ^ j % d = 0 then some j else exponenteDecimal f (j + 1) d

/-- The number `m` without its trailing zeros, and their count added to
`z`. -/
def quitarCeros : Nat → Nat → Nat → Nat × Nat
  | 0, m, z => (m, z)
  | f + 1, m, z => if m % 10 = 0 ∧ m ≠ 0 then quitarCeros f (m / 10) (z + 1) else (m, z)

/-- The decimal form of a rational that is a decimal fraction: `(s, e)` with
`|q| = s * 10^e` and `s` not a multiple of 10; `none` for a rational that is
no decimal fraction (no JavaScript number has such a value). -/
def descomponer (q : ℚ) : Option (Nat × Int) :=
  match exponenteDecimal (q.den + 1) 0 q.den with
  | none => none
  | some j =>
    let m := q.num.natAbs * (10 ^ j / q.den)
    let (s, z) := quitarCeros m m 0
    some (s, (z : Int) - (j : Int))

/-- The number is finite and its value is a decimal fraction, as the value
of every finite JavaScript number is. -/
def JSNumber.esDecimal : JSNumber → Bool
  | .fin q => decide (q.den ∣ 10 ^ q.den)
  | _ => false

/-- The digits `ds` of `s` laid out for the exponent `n` (`s * 10^(n - k)`
with `k` digits) as `Number.prototype.toString` does: plain digits up to
`10^21`, a decimal point inside or after `0.` down to `10^-6`, exponent
notation elsewhere. -/
def disponer (ds : List Char) (n : Int) : List Char :=
  let k : Int := ds.length
  if k ≤ n ∧ n ≤ 21 then ds ++ List.replicate (n - k).toNat '0'
  else if 0 < n ∧ n ≤ 21 then ds.take n.toNat ++ '.' :: ds.drop n.toNat
  else if -6 < n ∧ n ≤ 0 then '0' :: '.' :: (List.replicate (-n).toNat '0' ++ ds)
  else
    let mantisa :=
      match ds with
      | [] => []
      | [d] => [d]
      | d :: r => d :: '.' :: r
    mantisa ++ 'e' :: (if n - 1 < 0 then '-' else '+') :: decimales (n - 1).natAbs

/-- The text of a finite number, `Number.prototype.toString`: `0`, or the
digits of the decimal form laid out by `disponer`, after a minus sign for a
negative number. A rational that is no decimal fraction is the value of no
JavaScript number; for it the text is `null`. -/
def numeroATexto (q : ℚ) : List Char :=
  if q = 0 then ['0']
  else
    match descomponer q with
    | none => ['n', 'u', 'l', 'l']
    | some (s, e) =>
      let ds := decimales s
      let cuerpo := disponer ds (e + (ds.length : Int))
      if q < 0 then '-' :: cuerpo else cuerpo

/-- A hexadecimal digit as a small-letter character. -/
def cifraHex (d : Nat) : Char := if d < 10 then Char.ofNat (48 + d) else Char.ofNat (87 + d)

/-- One character inside a JSON string, `QuoteJSONString`: the two-character
escapes, `\u00XX` for the other control characters, the character itself
elsewhere. -/
def citarCaracter (c : Char) : List Char :=
  if c = '"' then ['\\', '"']
  else if c = '\\' then ['\\', '\\']
  else if c.toNat = 8 then ['\\', 'b']
  else if c.toNat = 9 then ['\\', 't']
  else if c.toNat = 10 then ['\\', 'n']
  else if c.toNat = 12 then ['\\', 'f']
  else if c.toNat = 13 then ['\\', 'r']
  else if c.toNat < 32 then
    ['\\', 'u', '0', '0', cifraHex (c.toNat / 16), cifraHex (c.toNat % 16)]
  else [c]

/-- The characters of a text, each one quoted. -/
def citarCuerpo : List Char → List Char
  | [] => []
  | c :: cs => citarCaracter c ++ citarCuerpo cs

/-- A text as a JSON string, `QuoteJSONString`. -/
def citar (s : String) : List Char := '"' :: (citarCuerpo s.data ++ ['"'])

/-- Partial texts joined by a separator. -/
def unir (sep : List Char) : List (List Char) → List Char
  | [] => []
  | [p] => p
  | p :: q :: ps => p ++ sep ++ unir sep (q :: ps)

mutual
/-- The text of a value at the indentation `sangria`, with the gap of two
spaces of `JSON.stringify(value, null, 2)`. -/
def serializar (sangria : List Char) : Valor → List Char
  | .nulo => ['n', 'u', 'l', 'l']
  | .bool b => if b then ['t', 'r', 'u', 'e'] else ['f', 'a', 'l', 's', 'e']
  | .num x =>
    match x with
    | .fin q => numeroATexto q
    | _ => ['n', 'u', 'l', 'l']
  | .str s => citar s
  | .arr xs =>
    match serializarLista (sangria ++ [' ', ' ']) xs with
    | [] => ['[', ']']
    | p :: ps =>
      '[' :: '\n' :: (sangria ++ [' ', ' ']) ++
        unir (',' :: '\n' :: (sangria ++ [' ', ' '])) (p :: ps) ++ '\n' :: sangria ++ [']']
  | .obj campos =>
    match serializarCampos (sangria ++ [' ', ' ']) campos with
    | [] => ['{', '}']
    | p :: ps =>
      '{' :: '\n' :: (sangria ++ [' ', ' ']) ++
        unir (',' :: '\n' :: (sangria ++ [' ', ' '])) (p :: ps) ++ '\n' :: sangria ++ ['}']
/-- The texts of the elements of an array. -/
def serializarLista (sangria : List Char) : List Valor → List (List Char)
  | [] => []
  | v :: vs => serializar sangria v :: serializarLista sangria vs
/-- The texts `"key": value` of the fields of an object. -/
def serializarCampos (sangria : List Char) : List (String × Valor) → List (List Char)
  | [] => []
  | (k, v) :: cs => (citar k ++ ':' :: ' ' :: serializar sangria v) :: serializarCampos sangria cs
end

/-- The built-in `JSON.stringify(value, null, 2)`. -/
def JSON.stringify (v : Valor) : String := String.mk (serializar [] v)

/-- JSON white space: space, tab, line feed, carriage return. -/
def esBlanco (c : Char) : Bool := c == ' ' || c == '\t' || c == '\n' || c == '\r'

/-- Leading JSON white space removed. -/
def saltarBlancos (s : List Char) : List Char := s.dropWhile esBlanco

/-- A piece of a JSON string as read: a character written as itself or by a
two-character escape, or the code unit of a `\uXXXX` escape. -/
inductive Pieza where
  | car (c : Char)
  | unidad (n : Nat)

/-- The character of a two-character escape. -/
def escapeSimple (c : Char) : Option Char :=
  if c = '"' then some '"'
  else if c = '\\' then some '\\'
  else if c = '/' then some '/'
  else if c = 'b' then some (Char.ofNat 8)
  else if c = 'f' then some (Char.ofNat 12)
  else if c = 'n' then some (Char.ofNat 10)
  else if c = 'r' then some (Char.ofNat 13)
  else if c = 't' then some (Char.ofNat 9)
  else none

/-- The code unit of the four hexadecimal digits of a `\uXXXX` escape. -/
def unidadHex (a b c d : Char) : Option Nat :=
  match valorDigito a, valorDigito b, valorDigito c, valorDigito d with
  | some x, some y, some z, some w => some (((x * 16 + y) * 16 + z) * 16 + w)
  | _, _, _, _ => none

/-- The pieces of a JSON string after its opening quote, up to the closing
quote, and the text after it; `none` when the string is not well formed (no
closing quote, a control character, a wrong escape). -/
def parseCadena : List Char → Option (List Pieza × List Char)
  | [] => none
  | c :: r =>
    if c = '"' then some ([], r)
    else if c = '\\' then
      match r with
      | [] => none
      | e :: r1 =>
        if e = 'u' then
          match r1 with
          | a :: b :: x :: d :: r2 =>
            match unidadHex a b x d, parseCadena r2 with
            | some n, some (ps, r3) => some (.unidad n :: ps, r3)
            | _, _ => none
          | _ => none
        else
          match escapeSimple e, parseCadena r1 with
          | some k, some (ps, r3) => some (.car k :: ps, r3)
          | _, _ => none
    else if c.toNat < 32 then none
    else
      match parseCadena r with
      | some (ps, r3) => some (.car c :: ps, r3)
      | none => none

/-- The characters of the pieces of a string: a high surrogate unit followed
by a low one is one character, another unit is its own character, and a
surrogate unit alone, which no `String` holds, is read as U+FFFD. -/
def decodificar : List Pieza → List Char
  | [] => []
  | .car c :: ps => c :: decodificar ps
  | .unidad h :: .unidad l :: ps =>
    if 0xD800 ≤ h ∧ h < 0xDC00 ∧ 0xDC00 ≤ l ∧ l < 0xE000 then
      Char.ofNat (0x10000 + (h - 0xD800) * 0x400 + (l - 0xDC00)) :: decodificar ps
    else if 0xD800 ≤ h ∧ h < 0xE000 then Char.ofNat 0xFFFD :: decodificar (.unidad l :: ps)
    else Char.ofNat h :: decodificar (.unidad l :: ps)
  | .unidad h :: ps =>
    if 0xD800 ≤ h ∧ h < 0xE000 then Char.ofNat 0xFFFD :: decodificar ps
    else Char.ofNat h :: decodificar ps

/-- The pieces that `parseCadena` reads back from the quoted form of a
text: the code unit for a character written as `\u00XX`, the character
itself elsewhere. -/
def piezasDe : List Char → List Pieza
  | [] => []
  | c :: cs =>
    (if c.toNat < 32 ∧ c.toNat ≠ 8 ∧ c.toNat ≠ 9 ∧ c.toNat ≠ 10 ∧ c.toNat ≠ 12 ∧ c.toNat ≠ 13 then
      Pieza.unidad c.toNat else Pieza.car c) :: piezasDe cs

/-- The exponent part of a JSON number, if there is one: `e` or `E`, an
optional sign and at least one digit. -/
def parseExponente : List Char → Option (Int × List Char)
  | c :: r =>
    if c = 'e' ∨ c = 'E' then
      let (neg, d) := leerSigno r
      let z := d.takeWhile (esDigito 10)
      if z.isEmpty then none
      else
        some (if neg then -((valorDigitos 10 z : Nat) : Int) else ((valorDigitos 10 z : Nat) : Int),
          d.dropWhile (esDigito 10))
    else some (0, c :: r)
  | [] => some (0, [])

/-- The fraction part of a JSON number, if there is one: a point and at least
one digit. -/
def parseFraccion : List Char → Option (List Char × List Char)
  | '.' :: t =>
    let z := t.takeWhile (esDigito 10)
    if z.isEmpty then none else some (z, t.dropWhile (esDigito 10))
  | s => some ([], s)

/-- A JSON number after its sign: `0` or digits that do not begin with `0`,
an optional fraction, an optional exponent; its decimal value, negated when
`neg`, and the text after it. -/
def parseSinSigno (neg : Bool) (s : List Char) : Option (ℚ × List Char) :=
  let ent := s.takeWhile (esDigito 10)
  if ent.isEmpty then none
  else if ent.head? = some '0' ∧ 1 < ent.length then none
  else
    match parseFraccion (s.dropWhile (esDigito 10)) with
    | none => none
    | some (frac, r2) =>
      match parseExponente r2 with
      | none => none
      | some (ex, r3) =>
        let m : Int := (valorDigitos 10 (ent ++ frac) : Nat)
        some (escalar (if neg then -m else m) (ex - frac.length), r3)

/-- A JSON number at the head of the text: an optional minus sign and the
number after it. -/
def parseNumero : List Char → Option (ℚ × List Char)
  | '-' :: r => parseSinSigno true r
  | s => parseSinSigno false s

/-- The text `r` does not go on a number that ends before it: it does not
begin with a digit, a point or an exponent mark. -/
def finNumero (r : List Char) : Prop :=
  ∀ c t, r = c :: t → esDigito 10 c = false ∧ c ≠ '.' ∧ c ≠ 'e' ∧ c ≠ 'E'

/-- The index that a field name stands for, if it is a canonical array
index (such fields are enumerated first, in ascending order). -/
def indiceDe (k : String) : Option Nat :=
  let ds := k.data
  if ds.isEmpty ∨ ¬ ds.all (esDigito 10) ∨ (ds.head? = some '0' ∧ 1 < ds.length) then none
  else if valorDigitos 10 ds < 2 ^ 32 - 1 then some (valorDigitos 10 ds) else none

/-- The field `k` put before the first field that is no index or a greater
index. -/
def ponerIndice (i : Nat) (k : String) (v : Valor) :
    List (String × Valor) → List (String × Valor)
  | [] => [(k, v)]
  | (k2, v2) :: cs =>
    match indiceDe k2 with
    | some i2 => if i < i2 then (k, v) :: (k2, v2) :: cs else (k2, v2) :: ponerIndice i k v cs
    | none => (k, v) :: (k2, v2) :: cs

/-- The fields of an object after the field `k` is set to `v`: the value is
replaced when the field exists; a new field goes after the others, or among
the index fields when its name is an index. -/
def poner (campos : List (String × Valor)) (k : String) (v : Valor) : List (String × Valor) :=
  if campos.any (fun p => p.1 == k) then campos.map (fun p => if p.1 == k then (k, v) else p)
  else
    match indiceDe k with
    | some i => ponerIndice i k v campos
    | none => campos ++ [(k, v)]

/-- One of the literals `null`, `true`, `false` at the head of the text. -/
def parseLiteral : List Char → Option (Valor × List Char)
  | 'n' :: 'u' :: 'l' :: 'l' :: r => some (.nulo, r)
  | 't' :: 'r' :: 'u' :: 'e' :: r => some (.bool true, r)
  | 'f' :: 'a' :: 'l' :: 's' :: 'e' :: r => some (.bool false, r)
  | _ => none

mutual
/-- A JSON value at the head of the text and the text after it (the first
argument bounds the number of nested readings). -/
def parseValor : Nat → List Char → Option (Valor × List Char)
  | 0, _ => none
  | f + 1, s =>
    match saltarBlancos s with
    | [] => none
    | c :: r =>
      if c = '-' ∨ esDigito 10 c = true then
        match parseNumero (c :: r) with
        | some (q, r2) => some (.num (.fin q), r2)
        | none => none
      else if c = '"' then
        match parseCadena r with
        | some (ps, r2) => some (.str (String.mk (decodificar ps)), r2)
        | none => none
      else if c = '[' then
        match saltarBlancos r with
        | ']' :: r2 => some (.arr [], r2)
        | _ => parseElementos f r []
      else if c = '{' then
        match saltarBlancos r with
        | '}' :: r2 => some (.obj [], r2)
        | _ => parseMiembros f r []
      else parseLiteral (c :: r)
/-- The elements of an array after `acc`, up to the closing bracket. -/
def parseElementos : Nat → List Char → List Valor → Option (Valor × List Char)
  | 0, _, _ => none
  | f + 1, s, acc =>
    match parseValor f s with
    | none => none
    | some (v, r) =>
      match saltarBlancos r with
      | ',' :: r2 => parseElementos f r2 (acc ++ [v])
      | ']' :: r2 => some (.arr (acc ++ [v]), r2)
      | _ => none
/-- The fields of an object after `acc`, up to the closing brace. -/
def parseMiembros : Nat → List Char → List (String × Valor) → Option (Valor × List Char)
  | 0, _, _ => none
  | f + 1, s, acc =>
    match saltarBlancos s with
    | '"' :: r =>
      match parseCadena r with
      | none => none
      | some (ks, r1) =>
        match saltarBlancos r1 with
        | ':' :: r2 =>
          match parseValor f r2 with
          | none => none
          | some (v, r3) =>
            match saltarBlancos r3 with
            | ',' :: r4 => parseMiembros f r4 (poner acc (String.mk (decodificar ks)) v)
            | '}' :: r4 => some (.obj (poner acc (String.mk (decodificar ks)) v), r4)
            | _ => none
        | _ => none
    | _ => none
end

/-- The built-in `JSON.parse(text)`: the value of a text that is one JSON
value between white space; `none` stands for the `SyntaxError`. -/
def JSON.parse (texto : String) : Option Valor :=
  match parseValor (texto.length + 1) texto.data with
  | some (v, r) => if (saltarBlancos r).isEmpty then some v else none
  | none => none

/-- A task as the value that `JSON.stringify` walks: its own fields in the
order in which the constructor sets them (lines 26-34). -/
def Tarea.aValor (t : Tarea) : Valor :=
  .obj [("id", .num (.fin t.id)), ("titulo", .str t.titulo),
    ("descripcion", .str t.descripcion), ("estado", .num (.fin t.estado)),
    ("dificultad", .num (.fin t.dificultad)), ("fechaCreacion", .str t.fechaCreacion),
    ("fechaVencimiento", .str t.fechaVencimiento), ("fechaEdicion", .str t.fechaEdicion),
    ("costo", .num t.costo)]

/-- The array `tareas` as a value. -/
def coleccion (tareas : List Tarea) : Valor := .arr (tareas.map Tarea.aValor)

/-- The function `guardarTareas` (lines 69-76): the content of `tareas.json`
after the call (`none` when the file does not exist). `escrituraFalla` tells
that `writeFileSync` throws, which leaves the file as it was. -/
def guardarTareas (escrituraFalla : Bool) (tareas : Valor) (archivo : Option String) :
    Option String :=
  if escrituraFalla then archivo else some (JSON.stringify tareas)

/-- The function `cargarTareas` (lines 55-66): the value of `tareas` after
the call, given the content of `tareas.json` (`none` when the file does not
exist) and the value of `tareas` before. `lecturaFalla` tells that
`readFileSync` throws. The `catch` branch, which sets the empty array, is
taken when the read throws, when `JSON.parse` throws, and when the value
read is `null`, on which `tareas.length` of line 60 throws. -/
def cargarTareas (lecturaFalla : Bool) (archivo : Option String) (tareas : Valor) : Valor :=
  match archivo with
  | none => tareas
  | some datos =>
    if lecturaFalla then .arr []
    else
      match JSON.parse datos with
      | some .nulo => .arr []
      | some v => v
      | none => .arr []

/-! ## Identifier assignment -/

theorem mathMax_ge_init (x : Int) (xs : List Int) : x ≤ mathMax x xs := by
  induction xs generalizing x with
  | nil => simp [mathMax]
  | cons y ys ih =>
    have h := ih (max x y)
    simp only [mathMax, List.foldl_cons] at h ⊢
    exact le_trans (le_max_left x y) h

theorem mathMax_ge (x : Int) (xs : List Int) : ∀ y ∈ x :: xs, y ≤ mathMax x xs := by
  induction xs generalizing x with
  | nil => intro y hy; simp at hy; simp [mathMax, hy]
  | cons z zs ih =>
    intro y hy
    have hstep : mathMax x (z :: zs) = mathMax (max x z) zs := by simp [mathMax]
    rw [hstep]
    rcases List.mem_cons.mp hy with h | h
    · subst h; exact le_trans (le_max_left _ _) (mathMax_ge_init _ _)
    · rcases List.mem_cons.mp h with h | h
      · subst h; exact le_trans (le_max_right _ _) (mathMax_ge_init _ _)
      · exact ih (max x z) y (List.mem_cons_of_mem _ h)

theorem mathMax_mem (x : Int) (xs : List Int) : mathMax x xs ∈ x :: xs := by
  induction xs generalizing x with
  | nil => simp [mathMax]
  | cons z zs ih =>
    have hstep : mathMax x (z :: zs) = mathMax (max x z) zs := by simp [mathMax]
    rw [hstep]
    rcases List.mem_cons.mp (ih (max x z)) with h | h
    · rw [h]
      rcases max_choice x z with hm | hm
      · rw [hm]; simp
      · rw [hm]; simp
    · exact List.mem_cons_of_mem _ (List.mem_cons_of_mem _ h)

/-- Integers up to `2^53` in absolute value are doubles. -/
theorem redondear_eq (n : Int) (h : n.natAbs ≤ 2 ^ 53) : redondear n = n := by
  unfold redondear
  simp only
  rw [if_pos h]

/-- Below `2^53` in absolute value the sum `x + 1` is exact. -/
theorem sumaUno_eq (x : Int) (h1 : -(2 : Int) ^ 53 < x) (h2 : x < 2 ^ 53) :
    sumaUno x = x + 1 := by
  unfold sumaUno
  apply redondear_eq
  have : ((x + 1).natAbs : Int) ≤ 2 ^ 53 := by
    rw [Int.natCast_natAbs]
    exact abs_le.mpr ⟨by omega, by omega⟩
  exact_mod_cast this

/-- With identifiers below `2^53` in absolute value, the next identifier of a
collection that is not empty is its greatest identifier plus 1. -/
theorem nuevoId_cons (u : Tarea) (us : List Tarea)
    (hb : ∀ t ∈ u :: us, -(2 : Int) ^ 53 < t.id ∧ t.id < 2 ^ 53) :
    nuevoId (u :: us) = mathMax u.id (us.map (fun t => t.id)) + 1 := by
  have hmem := mathMax_mem u.id (us.map (fun t => t.id))
  have hmem2 : mathMax u.id (us.map (fun t => t.id)) ∈ (u :: us).map (fun t => t.id) := by
    simpa using hmem
  obtain ⟨t, ht, hid⟩ := List.mem_map.mp hmem2
  have hbt := hb t ht
  simp only [nuevoId, List.map_cons]
  rw [← hid]
  exact sumaUno_eq _ hbt.1 hbt.2

/-- With identifiers below `2^53` in absolute value, every identifier of the
collection is below the next identifier. -/
theorem id_lt_nuevoId (tareas : List Tarea)
    (hb : ∀ t ∈ tareas, -(2 : Int) ^ 53 < t.id ∧ t.id < 2 ^ 53) :
    ∀ t ∈ tareas, t.id < nuevoId tareas := by
  intro t ht
  cases tareas with
  | nil => simp at ht
  | cons u us =>
    have hmem : t.id ∈ u.id :: us.map (fun t => t.id) := by
      rcases List.mem_cons.mp ht with h | h
      · subst h; simp
      · exact List.mem_cons_of_mem _ (List.mem_map_of_mem _ h)
    have hle := mathMax_ge u.id (us.map (fun t => t.id)) t.id hmem
    rw [nuevoId_cons u us hb]
    omega

/-- With identifiers above `-2^53` and not above `c < 2^53`, the next
identifier is above `-2^53` and not above `c + 1`, or 1 on the empty
collection. -/
theorem nuevoId_le (tareas : List Tarea) (c : Int) (hc : c < 2 ^ 53)
    (hb : ∀ t ∈ tareas, -(2 : Int) ^ 53 < t.id ∧ t.id ≤ c) :
    -(2 : Int) ^ 53 < nuevoId tareas ∧ (nuevoId tareas ≤ c + 1 ∨ nuevoId tareas = 1) := by
  cases tareas with
  | nil => exact ⟨by simp [nuevoId], Or.inr rfl⟩
  | cons u us =>
    have hb2 : ∀ t ∈ u :: us, -(2 : Int) ^ 53 < t.id ∧ t.id < 2 ^ 53 := by
      intro t ht
      have := hb t ht
      exact ⟨this.1, by omega⟩
    have hmem := mathMax_mem u.id (us.map (fun t => t.id))
    have hmem2 : mathMax u.id (us.map (fun t => t.id)) ∈ (u :: us).map (fun t => t.id) := by
      simpa using hmem
    obtain ⟨t, ht, hid⟩ := List.mem_map.mp hmem2
    have hbt := hb t ht
    rw [nuevoId_cons u us hb2, ← hid]
    exact ⟨by omega, Or.inl (by omega)⟩

/-- The task appended by `agregarTarea` carries `nuevoId` of the collection. -/
theorem agregarTarea_eq (ahora titulo descripcion fechaVencimiento costoStr difStr : String)
    (tareas : List Tarea) :
    agregarTarea ahora titulo descripcion fechaVencimiento costoStr difStr tareas =
      tareas ++ [nuevaTarea ahora (nuevoId tareas) titulo descripcion fechaVencimiento
        (leerCosto costoStr) (leerDificultad difStr)] := rfl

/-- The tasks appended by a sequence of adds that stays within `2^53`: their
identifiers increase strictly and lie above every identifier that was
present. -/
theorem agregarTodas_nuevas (rs : List RespuestasAgregar) (tareas : List Tarea)
    (hn : (rs.length : Int) ≤ 2 ^ 53)
    (hb : ∀ t ∈ tareas, -(2 : Int) ^ 53 < t.id ∧ t.id + rs.length ≤ 2 ^ 53) :
    ∃ nuevas : List Tarea, agregarTodas rs tareas = tareas ++ nuevas ∧
      nuevas.length = rs.length ∧
      (nuevas.map (fun t => t.id)).Pairwise (· < ·) ∧
      ∀ t ∈ tareas, ∀ n ∈ nuevas, t.id < n.id := by
  induction rs generalizing tareas with
  | nil => exact ⟨[], by simp [agregarTodas]⟩
  | cons r rs ih =>
    simp only [List.length_cons, Nat.cast_add, Nat.cast_one] at hn hb
    have hb1 : ∀ t ∈ tareas, -(2 : Int) ^ 53 < t.id ∧ t.id < 2 ^ 53 := by
      intro t ht
      have := hb t ht
      exact ⟨this.1, by omega⟩
    have hb2 : ∀ t ∈ tareas, -(2 : Int) ^ 53 < t.id ∧ t.id ≤ 2 ^ 53 - (rs.length : Int) - 1 := by
      intro t ht
      have := hb t ht
      exact ⟨this.1, by omega⟩
    have hnew := nuevoId_le tareas (2 ^ 53 - (rs.length : Int) - 1) (by omega) hb2
    obtain ⟨ns, hns, hlen, hpw, hlt⟩ := ih
      (agregarTarea r.ahora r.titulo r.descripcion r.fechaVencimiento r.costoStr r.difStr tareas)
      (by omega)
      (by
        intro t ht
        rw [agregarTarea_eq] at ht
        rcases List.mem_append.mp ht with h | h
        · have := hb t h
          exact ⟨this.1, by omega⟩
        · simp only [List.mem_singleton] at h
          subst h
          simp only [nuevaTarea]
          refine ⟨hnew.1, ?_⟩
          rcases hnew.2 with h | h
          · omega
          · rw [h]; omega)
    rw [agregarTarea_eq] at hns hlt
    refine ⟨nuevaTarea r.ahora (nuevoId tareas) r.titulo r.descripcion r.fechaVencimiento
      (leerCosto r.costoStr) (leerDificultad r.difStr) :: ns, ?_, ?_, ?_, ?_⟩
    · simp only [agregarTodas, agregarTarea_eq]
      rw [hns]; simp
    · simp [hlen]
    · rw [List.map_cons, List.pairwise_cons]
      refine ⟨?_, hpw⟩
      intro a ha
      obtain ⟨n, hn, rfl⟩ := List.mem_map.mp ha
      exact hlt _ (by simp) n hn
    · intro t ht n hn
      rcases List.mem_cons.mp hn with h | h
      · subst h; exact id_lt_nuevoId tareas hb1 t ht
      · exact hlt t (by simp [ht]) n h

/-- C1 as stated fails: on a collection that holds the identifier `2^53`
(9007199254740992) the new task gets `2^53` again, not the maximum plus 1. -/
theorem agregarTarea_id_doble :
    agregarTarea "t" "a" "" "" "1" "1"
        [⟨9007199254740992, "x", "", 1, 1, "", "", "", .fin 0⟩] =
      [⟨9007199254740992, "x", "", 1, 1, "", "", "", .fin 0⟩,
        ⟨9007199254740992, "a", "", 1, 1, "t", "", "t", .fin 1⟩] ∧
    (9007199254740992 : Int) ≠ 9007199254740992 + 1 := by
  decide

/-- C1 amended: on a collection whose identifiers are integers below `2^53`
in absolute value, the identifier that `agregarTarea` gives the new task is 1
when the collection is empty and the maximum identifier present plus 1
otherwise. -/
theorem agregarTarea_id (ahora titulo descripcion fechaVencimiento costoStr difStr : String)
    (tareas : List Tarea) (hb : ∀ t ∈ tareas, -(2 : Int) ^ 53 < t.id ∧ t.id < 2 ^ 53) :
    ∃ nueva : Tarea,
      agregarTarea ahora titulo descripcion fechaVencimiento costoStr difStr tareas =
        tareas ++ [nueva] ∧
      (tareas = [] → nueva.id = 1) ∧
      (tareas ≠ [] → ∃ t ∈ tareas, (∀ u ∈ tareas, u.id ≤ t.id) ∧ nueva.id = t.id + 1) := by
  refine ⟨_, agregarTarea_eq _ _ _ _ _ _ _, ?_, ?_⟩
  · intro h; subst h; rfl
  · intro h
    cases tareas with
    | nil => exact absurd rfl h
    | cons u us =>
      have hmem := mathMax_mem u.id (us.map (fun t => t.id))
      have hmem2 : mathMax u.id (us.map (fun t => t.id)) ∈ (u :: us).map (fun t => t.id) := by
        simpa using hmem
      obtain ⟨t, ht, hid⟩ := List.mem_map.mp hmem2
      refine ⟨t, ht, ?_, ?_⟩
      · intro v hv
        rw [hid]
        apply mathMax_ge
        have := List.mem_map_of_mem (fun t => t.id) hv
        simpa using this
      · simp only [nuevaTarea]
        rw [nuevoId_cons u us hb, hid]

/-- Witness of C1 amended on the empty collection and on identifiers 4, 9,
2. -/
theorem agregarTarea_id_witness :
    (∃ nueva : Tarea, agregarTarea "t" "a" "" "" "" "" [] = [] ++ [nueva] ∧ nueva.id = 1) ∧
    (∃ nueva : Tarea,
      agregarTarea "t" "a" "" "" "" ""
          [⟨4, "x", "", 1, 1, "", "", "", .fin 0⟩, ⟨9, "y", "", 1, 1, "", "", "", .fin 0⟩,
            ⟨2, "z", "", 1, 1, "", "", "", .fin 0⟩] =
        [⟨4, "x", "", 1, 1, "", "", "", .fin 0⟩, ⟨9, "y", "", 1, 1, "", "", "", .fin 0⟩,
            ⟨2, "z", "", 1, 1, "", "", "", .fin 0⟩] ++ [nueva] ∧
      nueva.id = 10) := by
  constructor
  · obtain ⟨n, h1, h2, _⟩ := agregarTarea_id "t" "a" "" "" "" "" [] (by simp)
    exact ⟨n, h1, h2 rfl⟩
  · obtain ⟨n, h1, _, h3⟩ := agregarTarea_id "t" "a" "" "" "" ""
      [⟨4, "x", "", 1, 1, "", "", "", .fin 0⟩, ⟨9, "y", "", 1, 1, "", "", "", .fin 0⟩,
        ⟨2, "z", "", 1, 1, "", "", "", .fin 0⟩] (by decide)
    refine ⟨n, h1, ?_⟩
    obtain ⟨t, ht, hmax, hid⟩ := h3 (by simp)
    have h9 := hmax ⟨9, "y", "", 1, 1, "", "", "", .fin 0⟩ (by simp)
    simp only [List.mem_cons, List.mem_singleton, List.not_mem_nil, or_false] at ht
    rcases ht with rfl | rfl | rfl
    · simp at h9
    · simpa using hid
    · simp at h9

/-- C2 as stated fails: the collection that holds the one identifier `2^53`
has pairwise distinct identifiers, and two adds on it both assign `2^53`, so
the identifiers assigned do not increase and the result holds `2^53` three
times. -/
theorem agregarTodas_ids_doble :
    ([(⟨9007199254740992, "x", "", 1, 1, "", "", "", .fin 0⟩ : Tarea)].map
      (fun t => t.id)).Nodup ∧
    (agregarTodas [⟨"t1", "a", "", "", "1", "1"⟩, ⟨"t2", "b", "", "", "2", "2"⟩]
        [⟨9007199254740992, "x", "", 1, 1, "", "", "", .fin 0⟩]).map (fun t => t.id) =
      [9007199254740992, 9007199254740992, 9007199254740992] ∧
    ¬ ([9007199254740992, 9007199254740992] : List Int).Pairwise (· < ·) ∧
    ¬ ((agregarTodas [⟨"t1", "a", "", "", "1", "1"⟩, ⟨"t2", "b", "", "", "2", "2"⟩]
        [⟨9007199254740992, "x", "", 1, 1, "", "", "", .fin 0⟩]).map (fun t => t.id)).Nodup := by
  decide

/-- C2 amended: for every sequence of adds from a collection whose
identifiers are pairwise distinct integers above `-2^53`, as long as the
greatest identifier plus the number of adds does not pass `2^53` (and the
number of adds does not pass `2^53` from the empty collection), the
identifiers assigned increase strictly in the order of the adds and the
identifiers of the resulting collection are pairwise distinct. -/
theorem agregarTodas_ids (rs : List RespuestasAgregar) (tareas : List Tarea)
    (h : (tareas.map (fun t => t.id)).Nodup)
    (hn : (rs.length : Int) ≤ 2 ^ 53)
    (hb : ∀ t ∈ tareas, -(2 : Int) ^ 53 < t.id ∧ t.id + rs.length ≤ 2 ^ 53) :
    ∃ nuevas : List Tarea, agregarTodas rs tareas = tareas ++ nuevas ∧
      nuevas.length = rs.length ∧
      (nuevas.map (fun t => t.id)).Pairwise (· < ·) ∧
      (∀ t ∈ tareas, ∀ n ∈ nuevas, t.id < n.id) ∧
      ((agregarTodas rs tareas).map (fun t => t.id)).Nodup := by
  obtain ⟨ns, hns, hlen, hpw, hlt⟩ := agregarTodas_nuevas rs tareas hn hb
  refine ⟨ns, hns, hlen, hpw, hlt, ?_⟩
  rw [hns, List.map_append, List.nodup_append]
  refine ⟨h, ?_, ?_⟩
  · exact hpw.imp (fun hab => ne_of_lt hab)
  · intro a ha hb
    obtain ⟨t, ht, rfl⟩ := List.mem_map.mp ha
    obtain ⟨n, hn, hn2⟩ := List.mem_map.mp hb
    have := hlt t ht n hn
    omega

/-- Witness of C2 amended: two adds on a collection that holds identifier
5. -/
theorem agregarTodas_ids_witness :
    (([(⟨5, "x", "", 1, 1, "", "", "", .fin 0⟩ : Tarea)].map (fun t => t.id)).Nodup ∧
      (([(⟨"t1", "a", "", "", "1", "1"⟩ : RespuestasAgregar),
        ⟨"t2", "b", "", "", "2", "2"⟩].length : Nat) : Int) ≤ 2 ^ 53) ∧
    agregarTodas [⟨"t1", "a", "", "", "1", "1"⟩, ⟨"t2", "b", "", "", "2", "2"⟩]
        [⟨5, "x", "", 1, 1, "", "", "", .fin 0⟩] =
      [⟨5, "x", "", 1, 1, "", "", "", .fin 0⟩, ⟨6, "a", "", 1, 1, "t1", "", "t1", .fin 1⟩,
        ⟨7, "b", "", 1, 2, "t2", "", "t2", .fin 2⟩] ∧
    ∃ nuevas : List Tarea,
      agregarTodas [⟨"t1", "a", "", "", "1", "1"⟩, ⟨"t2", "b", "", "", "2", "2"⟩]
          [⟨5, "x", "", 1, 1, "", "", "", .fin 0⟩] =
        [⟨5, "x", "", 1, 1, "", "", "", .fin 0⟩] ++ nuevas ∧
      nuevas.length = [(⟨"t1", "a", "", "", "1", "1"⟩ : RespuestasAgregar),
        ⟨"t2", "b", "", "", "2", "2"⟩].length ∧
      (nuevas.map (fun t => t.id)).Pairwise (· < ·) ∧
      (∀ t ∈ [(⟨5, "x", "", 1, 1, "", "", "", .fin 0⟩ : Tarea)], ∀ n ∈ nuevas, t.id < n.id) ∧
      ((agregarTodas [⟨"t1", "a", "", "", "1", "1"⟩, ⟨"t2", "b", "", "", "2", "2"⟩]
          [⟨5, "x", "", 1, 1, "", "", "", .fin 0⟩]).map (fun t => t.id)).Nodup :=
  ⟨⟨by decide, by decide⟩, by decide, agregarTodas_ids _ _ (by decide) (by decide) (by decide)⟩

/-! ## Lookup by identifier -/

/-- When `findIndex` answers an index, the collection splits there: no task
before the index satisfies the test and the task at the index does. -/
theorem findIndex_some (p : Tarea → Bool) (l : List Tarea) (i : Nat)
    (h : findIndex p l = some i) :
    ∃ antes t despues, l = antes ++ t :: despues ∧ antes.length = i ∧ p t = true ∧
      ∀ u ∈ antes, p u = false := by
  induction l generalizing i with
  | nil => simp [findIndex] at h
  | cons a as ih =>
    by_cases hp : p a = true
    · simp only [findIndex, hp, if_true, Option.some.injEq] at h
      exact ⟨[], a, as, rfl, by simpa using h, hp, by simp⟩
    · simp only [findIndex, hp, Bool.false_eq_true, if_false] at h
      cases hj : findIndex p as with
      | none => rw [hj] at h; simp at h
      | some j =>
      rw [hj] at h
      simp only [Option.map_some', Option.some.injEq] at h
      subst h
      obtain ⟨antes, t, despues, hl, hlen, hpt, hno⟩ := ih j hj
      refine ⟨a :: antes, t, despues, by simp [hl], by simp [hlen], hpt, ?_⟩
      intro u hu
      rcases List.mem_cons.mp hu with rfl | hu
      · simpa using hp
      · exact hno u hu

/-- When some task satisfies the test, `findIndex` answers an index. -/
theorem findIndex_isSome (p : Tarea → Bool) (l : List Tarea) (h : ∃ t ∈ l, p t = true) :
    ∃ i, findIndex p l = some i := by
  induction l with
  | nil => simp at h
  | cons a as ih =>
    by_cases hp : p a = true
    · exact ⟨0, by simp [findIndex, hp]⟩
    · obtain ⟨t, ht, hpt⟩ := h
      rcases List.mem_cons.mp ht with rfl | ht
      · exact absurd hpt hp
      · obtain ⟨j, hj⟩ := ih ⟨t, ht, hpt⟩
        exact ⟨j + 1, by simp [findIndex, hp, hj]⟩

theorem eraseIdx_split (antes despues : List Tarea) (t : Tarea) :
    (antes ++ t :: despues).eraseIdx antes.length = antes ++ despues := by
  induction antes with
  | nil => rfl
  | cons a as ih => simp [List.eraseIdx, ih]

theorem modify_split (f : Tarea → Tarea) (antes despues : List Tarea) (t : Tarea) :
    (antes ++ t :: despues).modify f antes.length = antes ++ f t :: despues := by
  induction antes with
  | nil => rfl
  | cons a as ih => simp [List.modify_succ_cons, ih]

/-- The split of the collection at the first task with identifier `id`. -/
theorem split_en_id (id : Int) (tareas : List Tarea) (h : ∃ t ∈ tareas, t.id = id) :
    ∃ antes t despues, tareas = antes ++ t :: despues ∧ t.id = id ∧
      (∀ u ∈ antes, u.id ≠ id) ∧
      findIndex (fun t => t.id == id) tareas = some antes.length := by
  obtain ⟨t0, ht0, hid0⟩ := h
  obtain ⟨i, hi⟩ := findIndex_isSome (fun t => t.id == id) tareas ⟨t0, ht0, by simp [hid0]⟩
  obtain ⟨antes, t, despues, hl, hlen, hpt, hno⟩ := findIndex_some _ _ _ hi
  refine ⟨antes, t, despues, hl, by simpa using hpt, ?_, by rw [hi, hlen]⟩
  intro u hu
  simpa using hno u hu

/-- C3: for an identifier present in the collection, `borrarTarea` with the
confirmation `s` or `S` removes exactly one record, which has that
identifier (the first one in the collection); every other record stays,
unchanged and in the same relative order. -/
theorem borrarTarea_confirmada (lower : String → String) (hs : lower "s" = "s")
    (hS : lower "S" = "s") (id : Int) (confirmacion : String)
    (hc : confirmacion = "s" ∨ confirmacion = "S") (tareas : List Tarea)
    (h : ∃ t ∈ tareas, t.id = id) :
    ∃ antes t despues, tareas = antes ++ t :: despues ∧ t.id = id ∧
      (∀ u ∈ antes, u.id ≠ id) ∧
      borrarTarea lower id confirmacion tareas = antes ++ despues := by
  obtain ⟨antes, t, despues, hl, hid, hno, hfind⟩ := split_en_id id tareas h
  refine ⟨antes, t, despues, hl, hid, hno, ?_⟩
  have hlow : lower confirmacion = "s" := by
    rcases hc with rfl | rfl
    · exact hs
    · exact hS
  simp only [borrarTarea, hfind, hlow, beq_self_eq_true, if_true]
  rw [hl]
  exact eraseIdx_split antes despues t

/-- Witness of C3: identifiers 1, 2, 3 and the deletion of 2 confirmed with
`S` leave exactly the records 1 and 3. -/
theorem borrarTarea_confirmada_witness :
    (toLowerCaseASCII "s" = "s" ∧ toLowerCaseASCII "S" = "s") ∧
    borrarTarea toLowerCaseASCII 2 "S"
        [⟨1, "a", "", 1, 1, "", "", "", .fin 0⟩, ⟨2, "b", "", 1, 1, "", "", "", .fin 0⟩,
          ⟨3, "c", "", 1, 1, "", "", "", .fin 0⟩] =
      [⟨1, "a", "", 1, 1, "", "", "", .fin 0⟩, ⟨3, "c", "", 1, 1, "", "", "", .fin 0⟩] ∧
    ∃ antes t despues,
      [(⟨1, "a", "", 1, 1, "", "", "", .fin 0⟩ : Tarea), ⟨2, "b", "", 1, 1, "", "", "", .fin 0⟩,
          ⟨3, "c", "", 1, 1, "", "", "", .fin 0⟩] = antes ++ t :: despues ∧ t.id = 2 ∧
      (∀ u ∈ antes, u.id ≠ 2) ∧
      borrarTarea toLowerCaseASCII 2 "S"
        [⟨1, "a", "", 1, 1, "", "", "", .fin 0⟩, ⟨2, "b", "", 1, 1, "", "", "", .fin 0⟩,
          ⟨3, "c", "", 1, 1, "", "", "", .fin 0⟩] = antes ++ despues :=
  ⟨⟨by decide, by decide⟩, by decide,
    borrarTarea_confirmada toLowerCaseASCII (by decide) (by decide) 2 "S" (Or.inr rfl) _
      ⟨⟨2, "b", "", 1, 1, "", "", "", .fin 0⟩, by simp, rfl⟩⟩

/-- C4: for an identifier present in the collection, `editarTarea` with empty
answers for title, description and state changes nothing but the edit date of
the task with that identifier (the first one in the collection): all its
other fields and every other task are as before. -/
theorem editarTarea_vacio (ahora : String) (id : Int) (tareas : List Tarea)
    (h : ∃ t ∈ tareas, t.id = id) :
    ∃ antes t despues, tareas = antes ++ t :: despues ∧ t.id = id ∧
      (∀ u ∈ antes, u.id ≠ id) ∧
      editarTarea ahora id "" "" "" tareas =
        antes ++ { t with fechaEdicion := ahora } :: despues := by
  obtain ⟨antes, t, despues, hl, hid, hno, hfind⟩ := split_en_id id tareas h
  refine ⟨antes, t, despues, hl, hid, hno, ?_⟩
  have hcampos : ∀ u : Tarea, editarCampos ahora "" "" "" u = { u with fechaEdicion := ahora } := by
    intro u
    have hp : parseInt "" = none := by decide
    have he : "".isEmpty = true := by decide
    simp [editarCampos, hp, he]
  simp only [editarTarea, hfind]
  rw [hl, modify_split, hcampos]

/-- Witness of C4: the edit of task 2 with empty answers. -/
theorem editarTarea_vacio_witness :
    editarTarea "u" 2 "" "" ""
        [⟨1, "a", "x", 1, 1, "t", "", "t", .fin 0⟩, ⟨2, "b", "y", 3, 2, "t", "d", "t", .fin 7⟩] =
      [⟨1, "a", "x", 1, 1, "t", "", "t", .fin 0⟩, ⟨2, "b", "y", 3, 2, "t", "d", "u", .fin 7⟩] ∧
    ∃ antes t despues,
      [(⟨1, "a", "x", 1, 1, "t", "", "t", .fin 0⟩ : Tarea),
          ⟨2, "b", "y", 3, 2, "t", "d", "t", .fin 7⟩] = antes ++ t :: despues ∧ t.id = 2 ∧
      (∀ u ∈ antes, u.id ≠ 2) ∧
      editarTarea "u" 2 "" "" ""
        [⟨1, "a", "x", 1, 1, "t", "", "t", .fin 0⟩, ⟨2, "b", "y", 3, 2, "t", "d", "t", .fin 7⟩] =
        antes ++ { t with fechaEdicion := "u" } :: despues :=
  ⟨by decide, editarTarea_vacio "u" 2 _ ⟨⟨2, "b", "y", 3, 2, "t", "d", "t", .fin 7⟩, by simp, rfl⟩⟩

/-! ## Selections -/

/-- C5: for a state `s` between 1 and 4, `listarTareas` with `filtro = s`
shows exactly the tasks whose state equals `s`, in the order of the
collection; with `filtro = 0` it shows the whole collection in order. -/
theorem tareasFiltradas_spec (s : Int) (hs : 1 ≤ s ∧ s ≤ 4) (tareas : List Tarea) :
    tareasFiltradas s tareas = tareas.filter (fun t => decide (t.estado = s)) ∧
    (tareasFiltradas s tareas).Sublist tareas ∧
    (∀ t, t ∈ tareasFiltradas s tareas ↔ t ∈ tareas ∧ t.estado = s) ∧
    tareasFiltradas 0 tareas = tareas := by
  have h0 : (s == 0) = false := by
    simp only [beq_eq_false_iff_ne, ne_eq]
    omega
  have heq : tareasFiltradas s tareas = tareas.filter (fun t => decide (t.estado = s)) := by
    simp only [tareasFiltradas, h0, Bool.false_eq_true, if_false]
    congr 1
  refine ⟨heq, ?_, ?_, ?_⟩
  · rw [heq]; exact List.filter_sublist tareas
  · intro t
    rw [heq]
    simp [List.mem_filter]
  · simp [tareasFiltradas]

/-- Witness of C5: the filter `EN_CURSO` on states 2, 1, 2. -/
theorem tareasFiltradas_spec_witness :
    ((1 : Int) ≤ 2 ∧ (2 : Int) ≤ 4) ∧
    tareasFiltradas 2
        [⟨1, "a", "", 2, 1, "", "", "", .fin 0⟩, ⟨2, "b", "", 1, 1, "", "", "", .fin 0⟩,
          ⟨3, "c", "", 2, 1, "", "", "", .fin 0⟩] =
      [⟨1, "a", "", 2, 1, "", "", "", .fin 0⟩, ⟨3, "c", "", 2, 1, "", "", "", .fin 0⟩] ∧
    (tareasFiltradas 2
        [⟨1, "a", "", 2, 1, "", "", "", .fin 0⟩, ⟨2, "b", "", 1, 1, "", "", "", .fin 0⟩,
          ⟨3, "c", "", 2, 1, "", "", "", .fin 0⟩]).Sublist
      [⟨1, "a", "", 2, 1, "", "", "", .fin 0⟩, ⟨2, "b", "", 1, 1, "", "", "", .fin 0⟩,
          ⟨3, "c", "", 2, 1, "", "", "", .fin 0⟩] :=
  ⟨by decide, by decide, (tareasFiltradas_spec 2 (by decide) _).2.1⟩

theorem empiezaCon_iff (s p : List Char) : empiezaCon s p = true ↔ ∃ b, s = p ++ b := by
  induction p generalizing s with
  | nil => cases s <;> simp [empiezaCon]
  | cons d p ih =>
    cases s with
    | nil => simp [empiezaCon]
    | cons c s =>
      simp only [empiezaCon, Bool.and_eq_true, beq_iff_eq, ih, List.cons_append, List.cons.injEq]
      constructor
      · rintro ⟨rfl, b, rfl⟩; exact ⟨b, rfl, rfl⟩
      · rintro ⟨b, rfl, rfl⟩; exact ⟨rfl, b, rfl⟩

/-- The scan `ocurreEn` answers true exactly when `p` is a contiguous part
of `s`. -/
theorem ocurreEn_iff (s p : List Char) : ocurreEn s p = true ↔ ∃ a b, s = a ++ p ++ b := by
  induction s with
  | nil =>
    simp only [ocurreEn, List.isEmpty_iff]
    constructor
    · rintro rfl; exact ⟨[], [], rfl⟩
    · rintro ⟨a, b, h⟩
      have h2 := congrArg List.length h
      simp only [List.length_nil, List.length_append] at h2
      exact List.length_eq_zero.mp (by omega)
  | cons c s ih =>
    simp only [ocurreEn, Bool.or_eq_true, empiezaCon_iff, ih]
    constructor
    · rintro (⟨b, hb⟩ | ⟨a, b, hab⟩)
      · exact ⟨[], b, by simpa using hb⟩
      · exact ⟨c :: a, b, by simp [hab]⟩
    · rintro ⟨a, b, hab⟩
      cases a with
      | nil => left; exact ⟨b, by simpa using hab⟩
      | cons x a =>
        right
        simp only [List.cons_append, List.cons.injEq] at hab
        exact ⟨a, b, hab.2⟩

/-- On ASCII texts the search with any lower-casing that agrees with
`toLowerCaseASCII` there is the search with `toLowerCaseASCII`. -/
theorem buscarTarea_ascii (lower : String → String)
    (hL : ∀ s : String, esASCII s = true → lower s = toLowerCaseASCII s)
    (palabra : String) (tareas : List Tarea) (hp : esASCII palabra = true)
    (ht : ∀ t ∈ tareas, esASCII t.titulo = true) :
    buscarTarea lower palabra tareas = buscarTarea toLowerCaseASCII palabra tareas := by
  unfold buscarTarea
  apply List.filter_congr
  intro t htm
  rw [hL _ hp, hL _ (ht t htm)]

/-- The characters of `toLowerCaseASCII` are those of the text under
`Char.toLower`. -/
theorem toLowerCaseASCII_data (s : String) :
    (toLowerCaseASCII s).data = s.data.map Char.toLower := by
  unfold toLowerCaseASCII
  simp only
  apply List.map_congr_left
  intro c _
  simp only [Char.toLower, ge_iff_le]

/-- C6: `buscarTarea` selects exactly the tasks whose lower-cased title has
the lower-cased word as a contiguous part, in the order of the collection;
only the title takes part in the match (a change of the other fields of the
tasks changes the selection by the same change), and two words with the same
lower-casing select the same tasks. For a lower-casing that is
`toLowerCaseASCII` on ASCII texts, as `toLowerCase` is, the match on ASCII
titles and words is the match of the texts with every letter `A`-`Z`
replaced by its small letter: `milk`, `MILK` and `MiLk` over the titles
`Buy milk` and `Walk dog` select `Buy milk` alone, whatever the other fields
hold. -/
theorem buscarTarea_spec (lower : String → String) (palabra : String) (tareas : List Tarea) :
    (∃ p : Tarea → Bool,
      (∀ t, p t = true ↔ ∃ a b, (lower t.titulo).data = a ++ (lower palabra).data ++ b) ∧
      buscarTarea lower palabra tareas = tareas.filter p) ∧
    (buscarTarea lower palabra tareas).Sublist tareas ∧
    (∀ t, t ∈ buscarTarea lower palabra tareas ↔
      t ∈ tareas ∧ ∃ a b, (lower t.titulo).data = a ++ (lower palabra).data ++ b) ∧
    (∀ f : Tarea → Tarea, (∀ t, (f t).titulo = t.titulo) →
      buscarTarea lower palabra (tareas.map f) = (buscarTarea lower palabra tareas).map f) ∧
    (∀ otra : String, lower otra = lower palabra →
      buscarTarea lower otra tareas = buscarTarea lower palabra tareas) ∧
    ((∀ s : String, esASCII s = true → lower s = toLowerCaseASCII s) →
      (esASCII palabra = true → (∀ t ∈ tareas, esASCII t.titulo = true) →
        ∀ t, t ∈ buscarTarea lower palabra tareas ↔
          t ∈ tareas ∧
            ∃ a b, t.titulo.data.map Char.toLower = a ++ palabra.data.map Char.toLower ++ b) ∧
      buscarTarea lower "milk"
          [⟨1, "Buy milk", "", 1, 1, "", "", "", .fin 0⟩,
            ⟨2, "Walk dog", "milk", 1, 1, "", "", "", .fin 0⟩] =
        [⟨1, "Buy milk", "", 1, 1, "", "", "", .fin 0⟩] ∧
      buscarTarea lower "MILK"
          [⟨1, "Buy milk", "", 1, 1, "", "", "", .fin 0⟩,
            ⟨2, "Walk dog", "MILK", 1, 1, "", "", "", .fin 0⟩] =
        [⟨1, "Buy milk", "", 1, 1, "", "", "", .fin 0⟩] ∧
      buscarTarea lower "MiLk"
          [⟨1, "BUY MILK", "", 1, 1, "", "", "", .fin 0⟩,
            ⟨2, "Walk dog", "", 1, 1, "", "", "", .fin 0⟩,
            ⟨3, "Milkshake", "", 1, 1, "", "", "", .fin 0⟩,
            ⟨4, "mil k", "", 1, 1, "", "", "", .fin 0⟩] =
        [⟨1, "BUY MILK", "", 1, 1, "", "", "", .fin 0⟩,
          ⟨3, "Milkshake", "", 1, 1, "", "", "", .fin 0⟩]) := by
  refine ⟨⟨fun t => includes (lower t.titulo) (lower palabra), ?_, rfl⟩, ?_, ?_, ?_, ?_, ?_⟩
  · intro t; exact ocurreEn_iff _ _
  · exact List.filter_sublist tareas
  · intro t
    simp only [buscarTarea, List.mem_filter, includes, ocurreEn_iff]
  · intro f hf
    simp only [buscarTarea, List.filter_map]
    congr 2
    funext t
    simp [Function.comp, hf]
  · intro otra h
    simp only [buscarTarea, h]
  · intro hL
    refine ⟨?_, ?_, ?_, ?_⟩
    · intro hp ht t
      rw [buscarTarea_ascii lower hL palabra tareas hp ht]
      simp only [buscarTarea, List.mem_filter, includes, ocurreEn_iff, toLowerCaseASCII_data]
    · rw [buscarTarea_ascii lower hL _ _ (by decide) (by decide)]
      decide
    · rw [buscarTarea_ascii lower hL _ _ (by decide) (by decide)]
      decide
    · rw [buscarTarea_ascii lower hL _ _ (by decide) (by decide)]
      decide

/-- Witness of C6: with `toLowerCaseASCII` the word `MILK` finds the title
`Buy milk` and not the description `MILK`, and the word `MiLk` finds
`BUY MILK` and `Milkshake`. -/
theorem buscarTarea_spec_witness :
    (∀ s : String, esASCII s = true → toLowerCaseASCII s = toLowerCaseASCII s) ∧
    buscarTarea toLowerCaseASCII "MILK"
        [⟨1, "Buy milk", "", 1, 1, "", "", "", .fin 0⟩,
          ⟨2, "Walk dog", "MILK", 1, 1, "", "", "", .fin 0⟩] =
      [⟨1, "Buy milk", "", 1, 1, "", "", "", .fin 0⟩] ∧
    buscarTarea toLowerCaseASCII "MiLk"
        [⟨1, "BUY MILK", "", 1, 1, "", "", "", .fin 0⟩,
          ⟨2, "Walk dog", "", 1, 1, "", "", "", .fin 0⟩,
          ⟨3, "Milkshake", "", 1, 1, "", "", "", .fin 0⟩,
          ⟨4, "mil k", "", 1, 1, "", "", "", .fin 0⟩] =
      [⟨1, "BUY MILK", "", 1, 1, "", "", "", .fin 0⟩,
        ⟨3, "Milkshake", "", 1, 1, "", "", "", .fin 0⟩] :=
  ⟨fun _ _ => rfl,
    ((buscarTarea_spec toLowerCaseASCII "" []).2.2.2.2.2 (fun _ _ => rfl)).2.2.1,
    ((buscarTarea_spec toLowerCaseASCII "" []).2.2.2.2.2 (fun _ _ => rfl)).2.2.2⟩

/-! ## The task built by `agregarTarea` -/

theorem oVacio_eq (s : String) : oVacio s = s := by
  unfold oVacio
  split
  · next h => exact ((String.isEmpty_iff s).mp h).symm
  · rfl

/-- The difficulty read is always one of 1, 2, 3. -/
theorem leerDificultad_rango (difStr : String) :
    1 ≤ leerDificultad difStr ∧ leerDificultad difStr ≤ 3 := by
  unfold leerDificultad
  split
  · simp [Dificultad.FACIL]
  · split
    · simp [Dificultad.FACIL]
    · omega

/-- C7: `agregarTarea` appends exactly one task at the end and leaves the
others as they were; the new task has the next identifier, the texts given,
state `PENDIENTE`, both dates equal to the current time, the difficulty read
when it lies in 1..3 and `FACIL` for any other answer, the cost read, and
cost 0 when the cost text does not parse; on the empty collection the answers
`Buy milk`, empty, empty, `2`, `1` give one task with identifier 1, state
`PENDIENTE`, difficulty `FACIL` and cost 2. -/
theorem agregarTarea_spec (ahora titulo descripcion fechaVencimiento costoStr difStr : String)
    (tareas : List Tarea) :
    (∃ nueva : Tarea,
      agregarTarea ahora titulo descripcion fechaVencimiento costoStr difStr tareas =
        tareas ++ [nueva] ∧
      nueva.id = nuevoId tareas ∧ nueva.titulo = titulo ∧ nueva.descripcion = descripcion ∧
      nueva.fechaVencimiento = fechaVencimiento ∧
      nueva.estado = Estado.PENDIENTE ∧
      nueva.fechaCreacion = ahora ∧ nueva.fechaEdicion = ahora ∧
      (∀ d, parseInt difStr = some d → 1 ≤ d ∧ d ≤ 3 → nueva.dificultad = d) ∧
      (∀ d, parseInt difStr = some d → d < 1 ∨ 3 < d → nueva.dificultad = Dificultad.FACIL) ∧
      (parseInt difStr = none → nueva.dificultad = Dificultad.FACIL) ∧
      (1 ≤ nueva.dificultad ∧ nueva.dificultad ≤ 3) ∧
      ((parseFloat costoStr).truthy = true → nueva.costo = parseFloat costoStr) ∧
      (parseFloat costoStr = .nan → nueva.costo = .fin 0)) ∧
    agregarTarea ahora "Buy milk" "" "" "2" "1" [] =
      [⟨1, "Buy milk", "", Estado.PENDIENTE, Dificultad.FACIL, ahora, "", ahora, .fin 2⟩] := by
  refine ⟨⟨_, agregarTarea_eq _ _ _ _ _ _ _, rfl, rfl, oVacio_eq _, oVacio_eq _, rfl, rfl, rfl,
    ?_, ?_, ?_, leerDificultad_rango difStr, ?_, ?_⟩, ?_⟩
  · intro d hd hr
    simp only [nuevaTarea, leerDificultad, hd]
    rw [if_neg (by omega)]
  · intro d hd hr
    simp only [nuevaTarea, leerDificultad, hd]
    rw [if_pos (by omega)]
  · intro hd
    simp only [nuevaTarea, leerDificultad, hd]
  · intro ht
    simp only [nuevaTarea, leerCosto, ht, if_true]
  · intro hn
    simp [nuevaTarea, leerCosto, hn, JSNumber.truthy]
  · have hc : leerCosto "2" = .fin 2 := by decide
    have hd : leerDificultad "1" = 1 := by decide
    have he : oVacio "" = "" := by decide
    simp [agregarTarea, nuevaTarea, nuevoId, hc, hd, he, Estado.PENDIENTE, Dificultad.FACIL]

/-- Witness of C7: the difficulty answer `7` is out of range and the cost
answer `abc` does not parse, so the new task is `FACIL` with cost 0. -/
theorem agregarTarea_spec_witness :
    (parseInt "7" = some 7 ∧ parseFloat "abc" = .nan) ∧
    ∃ nueva : Tarea,
      agregarTarea "t" "a" "b" "c" "abc" "7" [⟨4, "x", "", 1, 1, "", "", "", .fin 0⟩] =
        [⟨4, "x", "", 1, 1, "", "", "", .fin 0⟩] ++ [nueva] ∧
      nueva.dificultad = Dificultad.FACIL ∧ nueva.costo = .fin 0 := by
  refine ⟨by decide, ?_⟩
  obtain ⟨⟨n, h1, _, _, _, _, _, _, _, _, h10, _, _, _, h14⟩, _⟩ :=
    agregarTarea_spec "t" "a" "b" "c" "abc" "7" [⟨4, "x", "", 1, 1, "", "", "", .fin 0⟩]
  exact ⟨n, h1, h10 7 (by decide) (by decide), h14 (by decide)⟩

/-! ## The cost stored -/

theorem escalar_nonneg (m e : Int) (hm : 0 ≤ m) : 0 ≤ escalar m e := by
  unfold escalar
  split
  · have : (0 : Int) ≤ m * 10 ^ e.toNat := Int.mul_nonneg hm (by positivity)
    exact_mod_cast this
  · exact Rat.mkRat_nonneg hm _

/-- A text without a leading minus sign is read as `NaN` or as a number
greater than or equal to zero. -/
theorem parseFloat_noNegativo (texto : String)
    (h : (leerSigno (trimStart texto.data)).1 = false) :
    parseFloat texto = .nan ∨ (parseFloat texto).noNegativo = true := by
  unfold parseFloat
  rcases hp : leerSigno (trimStart texto.data) with ⟨neg, s⟩
  rw [hp] at h
  simp only at h
  subst h
  simp only
  split
  · right; rfl
  · split
    · left; rfl
    · right
      simp only [JSNumber.noNegativo, Bool.false_eq_true, if_false, decide_eq_true_eq]
      exact escalar_nonneg _ _ (Int.natCast_nonneg _)

/-- C9 as stated fails: the cost text `-5` stores the negative cost -5, and
the cost text `Infinity` stores a cost that is not finite. -/
theorem agregarTarea_costo_negativo :
    (agregarTarea "t" "a" "" "" "-5" "1" []).map (fun t => t.costo) = [.fin (-5)] ∧
    (JSNumber.fin (-5)).noNegativo = false ∧
    (agregarTarea "t" "a" "" "" "Infinity" "1" []).map (fun t => t.costo) = [.inf false] ∧
    (JSNumber.inf false).esFinito = false := by
  decide

/-- C9 amended: the cost stored by `agregarTarea` is the number read by
`parseFloat` when that number is truthy and 0 otherwise, so it is never
`NaN`; it is greater than or equal to zero whenever the cost text, after its
leading white space, does not begin with a minus sign. -/
theorem agregarTarea_costo (ahora titulo descripcion fechaVencimiento costoStr difStr : String)
    (tareas : List Tarea) :
    ∃ nueva : Tarea,
      agregarTarea ahora titulo descripcion fechaVencimiento costoStr difStr tareas =
        tareas ++ [nueva] ∧
      nueva.costo = (if (parseFloat costoStr).truthy then parseFloat costoStr else .fin 0) ∧
      nueva.costo ≠ .nan ∧
      ((leerSigno (trimStart costoStr.data)).1 = false → nueva.costo.noNegativo = true) := by
  refine ⟨_, agregarTarea_eq _ _ _ _ _ _ _, rfl, ?_, ?_⟩
  · simp only [nuevaTarea, leerCosto]
    split
    · next ht =>
      intro hn
      rw [hn] at ht
      simp [JSNumber.truthy] at ht
    · simp
  · intro hs
    simp only [nuevaTarea, leerCosto]
    split
    · next ht =>
      rcases parseFloat_noNegativo costoStr hs with hn | hn
      · rw [hn] at ht
        simp [JSNumber.truthy] at ht
      · exact hn
    · simp [JSNumber.noNegativo]

/-- Witness of C9 amended: the cost text `  +12` has no minus sign and the
cost stored is 12. -/
theorem agregarTarea_costo_witness :
    (leerSigno (trimStart "  +12".data)).1 = false ∧
    ∃ nueva : Tarea,
      agregarTarea "t" "a" "" "" "  +12" "1" [] = [] ++ [nueva] ∧
      nueva.costo = .fin 12 ∧ nueva.costo.noNegativo = true := by
  refine ⟨by decide, ?_⟩
  obtain ⟨n, h1, h2, _, h4⟩ := agregarTarea_costo "t" "a" "" "" "  +12" "1" []
  refine ⟨n, h1, ?_, h4 (by decide)⟩
  rw [h2]
  decide

/-! ## Identifiers along sequences of operations -/

theorem editarCampos_id (ahora nuevoTitulo nuevaDesc estadoStr : String) (t : Tarea) :
    (editarCampos ahora nuevoTitulo nuevaDesc estadoStr t).id = t.id := by
  unfold editarCampos
  simp only
  split <;> split <;> split <;> (try split) <;> rfl

theorem map_id_modify (f : Tarea → Tarea) (hf : ∀ t, (f t).id = t.id) (i : Nat)
    (l : List Tarea) : (l.modify f i).map (fun t => t.id) = l.map (fun t => t.id) := by
  induction l generalizing i with
  | nil => cases i <;> rfl
  | cons a as ih =>
    cases i with
    | zero => simp [List.modify_zero_cons, hf]
    | succ j => simp [List.modify_succ_cons, ih]

/-- An edit changes no identifier. -/
theorem editarTarea_ids (ahora : String) (id : Int) (nuevoTitulo nuevaDesc estadoStr : String)
    (tareas : List Tarea) :
    (editarTarea ahora id nuevoTitulo nuevaDesc estadoStr tareas).map (fun t => t.id) =
      tareas.map (fun t => t.id) := by
  unfold editarTarea
  split
  · rfl
  · exact map_id_modify _ (editarCampos_id _ _ _ _) _ _

/-- A deletion leaves a sublist of the collection. -/
theorem borrarTarea_sublist (lower : String → String) (id : Int) (confirmacion : String)
    (tareas : List Tarea) : (borrarTarea lower id confirmacion tareas).Sublist tareas := by
  unfold borrarTarea
  split
  · exact List.Sublist.refl _
  · split
    · exact List.eraseIdx_sublist _ _
    · exact List.Sublist.refl _

/-- Each operation on a collection reached in `k < 2^53` operations keeps
the identifiers strictly increasing along the collection and between 1 and
the number of operations. -/
theorem ejecutar_creciente (lower : String → String) (op : Operacion) (tareas : List Tarea)
    (k : Nat) (hk : k < 2 ^ 53)
    (h : (tareas.map (fun t => t.id)).Pairwise (· < ·))
    (hr : ∀ t ∈ tareas, 1 ≤ t.id ∧ t.id ≤ k) :
    ((ejecutar lower op tareas).map (fun t => t.id)).Pairwise (· < ·) ∧
    ∀ t ∈ ejecutar lower op tareas, 1 ≤ t.id ∧ t.id ≤ ((k + 1 : Nat) : Int) := by
  have hk2 : (k : Int) < 2 ^ 53 := by exact_mod_cast hk
  have hb : ∀ t ∈ tareas, -(2 : Int) ^ 53 < t.id ∧ t.id < 2 ^ 53 := by
    intro t ht
    have := hr t ht
    exact ⟨by omega, by omega⟩
  cases op with
  | agregar r =>
    simp only [ejecutar, agregarTarea_eq, List.map_append, List.map_cons, List.map_nil]
    constructor
    · rw [List.pairwise_append]
      refine ⟨h, by simp, ?_⟩
      intro a ha b hb2
      obtain ⟨t, ht, rfl⟩ := List.mem_map.mp ha
      simp only [List.mem_singleton] at hb2
      subst hb2
      exact id_lt_nuevoId tareas hb t ht
    · intro t ht
      rcases List.mem_append.mp ht with h1 | h1
      · have := hr t h1
        exact ⟨this.1, by push_cast; omega⟩
      · simp only [List.mem_singleton] at h1
        subst h1
        simp only [nuevaTarea]
        cases tareas with
        | nil => simp [nuevoId]
        | cons u us =>
          have hmem := mathMax_mem u.id (us.map (fun t => t.id))
          have hmem2 : mathMax u.id (us.map (fun t => t.id)) ∈
              (u :: us).map (fun t => t.id) := by
            simpa using hmem
          obtain ⟨t, ht, hid⟩ := List.mem_map.mp hmem2
          have := hr t ht
          rw [nuevoId_cons u us hb, ← hid]
          exact ⟨by omega, by push_cast; omega⟩
  | editar ahora id nuevoTitulo nuevaDesc estadoStr =>
    simp only [ejecutar, editarTarea_ids]
    refine ⟨h, ?_⟩
    intro t ht
    have hmem : t.id ∈ (editarTarea ahora id nuevoTitulo nuevaDesc estadoStr tareas).map
        (fun t => t.id) := List.mem_map_of_mem _ ht
    rw [editarTarea_ids] at hmem
    obtain ⟨u, hu, hid⟩ := List.mem_map.mp hmem
    have := hr u hu
    rw [← hid]
    exact ⟨this.1, by push_cast; omega⟩
  | borrar id confirmacion =>
    simp only [ejecutar]
    refine ⟨h.sublist ((borrarTarea_sublist lower id confirmacion tareas).map _), ?_⟩
    intro t ht
    have := hr t ((borrarTarea_sublist lower id confirmacion tareas).subset ht)
    exact ⟨this.1, by push_cast; omega⟩

theorem ejecutarTodas_creciente (lower : String → String) (ops : List Operacion)
    (tareas : List Tarea) (k : Nat) (hk : k + ops.length < 2 ^ 53)
    (h : (tareas.map (fun t => t.id)).Pairwise (· < ·))
    (hr : ∀ t ∈ tareas, 1 ≤ t.id ∧ t.id ≤ k) :
    ((ejecutarTodas lower ops tareas).map (fun t => t.id)).Pairwise (· < ·) ∧
    ∀ t ∈ ejecutarTodas lower ops tareas, 1 ≤ t.id ∧ t.id ≤ ((k + ops.length : Nat) : Int) := by
  induction ops generalizing tareas k with
  | nil => exact ⟨h, by simpa using hr⟩
  | cons op ops ih =>
    simp only [List.length_cons] at hk ⊢
    have hstep := ejecutar_creciente lower op tareas k (by omega) h hr
    have := ih (ejecutar lower op tareas) (k + 1) (by omega) hstep.1 hstep.2
    have he : k + 1 + ops.length = k + (ops.length + 1) := by omega
    rw [he] at this
    exact this

/-- C10 as stated fails: add, add, confirmed delete of 2, add assigns the
identifiers 1, 2, 2, so identifier 2 is assigned twice. -/
theorem idsAsignados_repetido :
    idsAsignados toLowerCaseASCII
        [.agregar ⟨"t1", "a", "", "", "1", "1"⟩, .agregar ⟨"t2", "b", "", "", "1", "1"⟩,
          .borrar 2 "s", .agregar ⟨"t3", "c", "", "", "1", "1"⟩] [] = [1, 2, 2] ∧
    ¬ (idsAsignados toLowerCaseASCII
        [.agregar ⟨"t1", "a", "", "", "1", "1"⟩, .agregar ⟨"t2", "b", "", "", "1", "1"⟩,
          .borrar 2 "s", .agregar ⟨"t3", "c", "", "", "1", "1"⟩] []).Pairwise (· < ·) := by
  decide

/-- C10 amended: after every sequence of fewer than `2^53` add, edit and
delete operations from the empty collection, the identifiers in the
collection increase strictly along it (so they are pairwise distinct), and
the identifier that the next add assigns is strictly greater than every
identifier then in the collection, that is, than the identifier of every
earlier add whose task has not been deleted. -/
theorem ejecutarTodas_ids (lower : String → String) (ops : List Operacion)
    (r : RespuestasAgregar) (hops : ops.length < 2 ^ 53) :
    ((ejecutarTodas lower ops []).map (fun t => t.id)).Pairwise (· < ·) ∧
    ((ejecutarTodas lower ops []).map (fun t => t.id)).Nodup ∧
    (∃ nueva : Tarea,
      ejecutarTodas lower (ops ++ [.agregar r]) [] = ejecutarTodas lower ops [] ++ [nueva] ∧
      idsAsignados lower (ops ++ [.agregar r]) [] = idsAsignados lower ops [] ++ [nueva.id] ∧
      ∀ t ∈ ejecutarTodas lower ops [], t.id < nueva.id) := by
  obtain ⟨hpw, hr⟩ := ejecutarTodas_creciente lower ops [] 0 (by omega) (by simp) (by simp)
  have hb : ∀ t ∈ ejecutarTodas lower ops [], -(2 : Int) ^ 53 < t.id ∧ t.id < 2 ^ 53 := by
    intro t ht
    have := hr t ht
    have hk2 : ((0 + ops.length : Nat) : Int) < 2 ^ 53 := by exact_mod_cast (by omega)
    exact ⟨by omega, by omega⟩
  have happ : ∀ (ops : List Operacion) (tareas : List Tarea),
      ejecutarTodas lower (ops ++ [.agregar r]) tareas =
        ejecutar lower (.agregar r) (ejecutarTodas lower ops tareas) := by
    intro ops
    induction ops with
    | nil => intro tareas; rfl
    | cons op ops ih =>
      intro tareas
      show ejecutarTodas lower (ops ++ [.agregar r]) (ejecutar lower op tareas) = _
      rw [ih]
      rfl
  have hids : ∀ (ops : List Operacion) (tareas : List Tarea),
      idsAsignados lower (ops ++ [.agregar r]) tareas =
        idsAsignados lower ops tareas ++ [nuevoId (ejecutarTodas lower ops tareas)] := by
    intro ops
    induction ops with
    | nil => intro tareas; simp [idsAsignados, ejecutarTodas]
    | cons op ops ih =>
      intro tareas
      cases op <;> simp [idsAsignados, ejecutarTodas, ih]
  refine ⟨hpw, hpw.imp (fun hab => ne_of_lt hab),
    nuevaTarea r.ahora (nuevoId (ejecutarTodas lower ops [])) r.titulo r.descripcion
      r.fechaVencimiento (leerCosto r.costoStr) (leerDificultad r.difStr), ?_, ?_, ?_⟩
  · rw [happ]
    exact agregarTarea_eq _ _ _ _ _ _ _
  · rw [hids]; rfl
  · exact id_lt_nuevoId _ hb

/-- Witness of C10 amended: after add, add and the confirmed deletion of 2
the collection holds identifier 1 alone, and the next add assigns an
identifier above it. -/
theorem ejecutarTodas_ids_witness :
    ([Operacion.agregar ⟨"t1", "a", "", "", "1", "1"⟩, .agregar ⟨"t2", "b", "", "", "1", "1"⟩,
      .borrar 2 "s"].length < 2 ^ 53) ∧
    ejecutarTodas toLowerCaseASCII
        [.agregar ⟨"t1", "a", "", "", "1", "1"⟩, .agregar ⟨"t2", "b", "", "", "1", "1"⟩,
          .borrar 2 "s"] [] =
      [⟨1, "a", "", 1, 1, "t1", "", "t1", .fin 1⟩] ∧
    ∃ nueva : Tarea,
      ejecutarTodas toLowerCaseASCII
          ([.agregar ⟨"t1", "a", "", "", "1", "1"⟩, .agregar ⟨"t2", "b", "", "", "1", "1"⟩,
            .borrar 2 "s"] ++ [.agregar ⟨"t3", "c", "", "", "1", "1"⟩]) [] =
        ejecutarTodas toLowerCaseASCII
          [.agregar ⟨"t1", "a", "", "", "1", "1"⟩, .agregar ⟨"t2", "b", "", "", "1", "1"⟩,
            .borrar 2 "s"] [] ++ [nueva] ∧
      idsAsignados toLowerCaseASCII
          ([.agregar ⟨"t1", "a", "", "", "1", "1"⟩, .agregar ⟨"t2", "b", "", "", "1", "1"⟩,
            .borrar 2 "s"] ++ [.agregar ⟨"t3", "c", "", "", "1", "1"⟩]) [] =
        idsAsignados toLowerCaseASCII
          [.agregar ⟨"t1", "a", "", "", "1", "1"⟩, .agregar ⟨"t2", "b", "", "", "1", "1"⟩,
            .borrar 2 "s"] [] ++ [nueva.id] ∧
      ∀ t ∈ ejecutarTodas toLowerCaseASCII
          [.agregar ⟨"t1", "a", "", "", "1", "1"⟩, .agregar ⟨"t2", "b", "", "", "1", "1"⟩,
            .borrar 2 "s"] [], t.id < nueva.id :=
  ⟨by decide, by decide,
    (ejecutarTodas_ids toLowerCaseASCII
      [.agregar ⟨"t1", "a", "", "", "1", "1"⟩, .agregar ⟨"t2", "b", "", "", "1", "1"⟩,
        .borrar 2 "s"] ⟨"t3", "c", "", "", "1", "1"⟩ (by decide)).2.2⟩

/-! ## Numerals -/

theorem valorDigito_cifra (d : Nat) (h : d < 10) : valorDigito (cifra d) = some d := by
  interval_cases d <;> rfl

theorem esDigito_cifra (d : Nat) (h : d < 10) : esDigito 10 (cifra d) = true := by
  interval_cases d <;> rfl

theorem cifra_ne_cero (d : Nat) (h1 : 1 ≤ d) (h : d < 10) : cifra d ≠ '0' := by
  interval_cases d <;> decide

theorem valorDigitos_foldl (a : Nat) (es : List Char) :
    es.foldl (fun n c => 10 * n + (valorDigito c).getD 0) a =
      a * 10 ^ es.length + valorDigitos 10 es := by
  induction es generalizing a with
  | nil => simp [valorDigitos]
  | cons c cs ih =>
    simp only [List.foldl_cons, List.length_cons, valorDigitos]
    rw [ih, ih (10 * 0 + _)]
    ring

theorem valorDigitos_append (ds es : List Char) :
    valorDigitos 10 (ds ++ es) = valorDigitos 10 ds * 10 ^ es.length + valorDigitos 10 es := by
  simp only [valorDigitos, List.foldl_append]
  exact valorDigitos_foldl _ _

theorem valorDigitos_ceros (z : Nat) : valorDigitos 10 (List.replicate z '0') = 0 := by
  induction z with
  | zero => rfl
  | succ z ih =>
    rw [List.replicate_succ]
    have := valorDigitos_append ['0'] (List.replicate z '0')
    simp only [List.singleton_append] at this
    rw [this, ih]
    simp [valorDigitos, valorDigito]

theorem cifras_valor (f n : Nat) (h : n < 10 ^ f) : valorDigitos 10 (cifras f n) = n := by
  induction f generalizing n with
  | zero => simp at h; subst h; rfl
  | succ f ih =>
    unfold cifras
    split
    · next hn =>
      simp [valorDigitos, valorDigito_cifra n hn]
    · next hn =>
      rw [valorDigitos_append, ih (n / 10) (by rw [pow_succ] at h; omega)]
      simp [valorDigitos, valorDigito_cifra (n % 10) (Nat.mod_lt _ (by norm_num))]
      omega

theorem cifras_digitos (f n : Nat) : ∀ c ∈ cifras f n, esDigito 10 c = true := by
  induction f generalizing n with
  | zero => simp [cifras]
  | succ f ih =>
    unfold cifras
    split
    · next hn =>
      intro c hc
      simp only [List.mem_singleton] at hc
      subst hc
      exact esDigito_cifra n hn
    · intro c hc
      rcases List.mem_append.mp hc with h | h
      · exact ih _ c h
      · simp only [List.mem_singleton] at h
        subst h
        exact esDigito_cifra _ (Nat.mod_lt _ (by norm_num))

theorem cifras_head (f n : Nat) (h1 : 1 ≤ n) (h : n < 10 ^ f) :
    ∃ c t, cifras f n = c :: t ∧ c ≠ '0' := by
  induction f generalizing n with
  | zero => simp at h; omega
  | succ f ih =>
    unfold cifras
    split
    · next hn => exact ⟨cifra n, [], rfl, cifra_ne_cero n h1 hn⟩
    · next hn =>
      obtain ⟨c, t, hct, hc⟩ := ih (n / 10) (by omega) (by rw [pow_succ] at h; omega)
      exact ⟨c, t ++ [cifra (n % 10)], by rw [hct]; rfl, hc⟩

theorem lt_pow_succ_self (n : Nat) : n < 10 ^ (n + 1) :=
  lt_trans (Nat.lt_pow_self (by norm_num : 1 < 10) n) (Nat.pow_lt_pow_right (by norm_num) (by omega))

theorem decimales_valor (n : Nat) : valorDigitos 10 (decimales n) = n :=
  cifras_valor _ _ (lt_pow_succ_self n)

theorem decimales_digitos (n : Nat) : ∀ c ∈ decimales n, esDigito 10 c = true :=
  cifras_digitos _ _

theorem decimales_head (n : Nat) (h1 : 1 ≤ n) : ∃ c t, decimales n = c :: t ∧ c ≠ '0' :=
  cifras_head _ _ h1 (lt_pow_succ_self n)

theorem decimales_ne_nil (n : Nat) : decimales n ≠ [] := by
  unfold decimales cifras
  split
  · simp
  · simp

/-! ## Decimal form of a number -/

theorem escalar_eq (m e : Int) : escalar m e = (m : ℚ) * (10 : ℚ) ^ e := by
  unfold escalar
  split
  · next h =>
    obtain ⟨k, rfl⟩ := Int.eq_ofNat_of_zero_le h
    simp [zpow_natCast]
  · next h =>
    have hneg : e < 0 := by omega
    obtain ⟨k, hk⟩ := Int.eq_ofNat_of_zero_le (by omega : 0 ≤ -e)
    have he : e = -(k : Int) := by omega
    rw [Rat.mkRat_eq_div, hk, he, zpow_neg, zpow_natCast]
    simp [div_eq_mul_inv]

theorem exponenteDecimal_some (f j d r : Nat) (h : exponenteDecimal f j d = some r) :
    10 ^ r % d = 0 := by
  induction f generalizing j with
  | zero => simp [exponenteDecimal] at h
  | succ f ih =>
    unfold exponenteDecimal at h
    split at h
    · next hj => simp only [Option.some.injEq] at h; subst h; exact hj
    · exact ih _ h

theorem exponenteDecimal_isSome (f j d k : Nat) (hk : j ≤ k) (hf : k < j + f)
    (hd : 10 ^ k % d = 0) : ∃ r, exponenteDecimal f j d = some r := by
  induction f generalizing j with
  | zero => omega
  | succ f ih =>
    unfold exponenteDecimal
    split
    · exact ⟨j, rfl⟩
    · next hj =>
      have hne : j ≠ k := by
        intro h; subst h; exact hj hd
      exact ih (j + 1) (by omega) (by omega)

theorem quitarCeros_spec (f m z : Nat) :
    m = (quitarCeros f m z).1 * 10 ^ ((quitarCeros f m z).2 - z) ∧ z ≤ (quitarCeros f m z).2 ∧
      (0 < m → 0 < (quitarCeros f m z).1) := by
  induction f generalizing m z with
  | zero => simp [quitarCeros]
  | succ f ih =>
    unfold quitarCeros
    split
    · next h =>
      obtain ⟨h1, h2, h3⟩ := ih (m / 10) (z + 1)
      refine ⟨?_, by omega, ?_⟩
      · have hm : m = m / 10 * 10 := by omega
        have he : (quitarCeros f (m / 10) (z + 1)).2 - z =
            ((quitarCeros f (m / 10) (z + 1)).2 - (z + 1)) + 1 := by omega
        rw [he, pow_succ, ← mul_assoc, ← h1]
        exact hm
      · intro hm
        exact h3 (by omega)
    · simp

theorem descomponer_spec (q : ℚ) (s : Nat) (e : Int) (h : descomponer q = some (s, e))
    (hq : q ≠ 0) : |q| = (s : ℚ) * (10 : ℚ) ^ e ∧ 0 < s := by
  unfold descomponer at h
  split at h
  · simp at h
  · next j hj =>
    simp only [Option.some.injEq, Prod.mk.injEq] at h
    obtain ⟨hs, he⟩ := h
    have hdiv := exponenteDecimal_some _ _ _ _ hj
    have hdvd : q.den ∣ 10 ^ j := Nat.dvd_of_mod_eq_zero hdiv
    obtain ⟨c, hc⟩ := hdvd
    have hden : 0 < q.den := q.den_pos
    have hcdiv : 10 ^ j / q.den = c := by
      rw [hc]; exact Nat.mul_div_cancel_left c hden
    rw [hcdiv] at hs he
    obtain ⟨h1, h2, h3⟩ := quitarCeros_spec (q.num.natAbs * c) (q.num.natAbs * c) 0
    rw [hs] at h1 h3
    have hnum : 0 < q.num.natAbs := Int.natAbs_pos.mpr (Rat.num_ne_zero.mpr hq)
    have hcpos : 0 < c := by
      rcases Nat.eq_zero_or_pos c with h0 | h0
      · rw [h0] at hc; simp at hc
      · exact h0
    refine ⟨?_, h3 (Nat.mul_pos hnum hcpos)⟩
    set z := (quitarCeros (q.num.natAbs * c) (q.num.natAbs * c) 0).2 with hz
    have he2 : e = (z : Int) - (j : Int) := he.symm
    have habs : |q| = (q.num.natAbs : ℚ) / (q.den : ℚ) := by
      conv_lhs => rw [← Rat.num_div_den q]
      rw [abs_div, Nat.abs_cast]
      congr 1
      rw [Nat.cast_natAbs, Int.cast_abs]
    have h10 : ((10 : ℚ) ^ j) = (q.den : ℚ) * (c : ℚ) := by exact_mod_cast hc
    have h1q : ((q.num.natAbs : ℚ) * (c : ℚ)) = (s : ℚ) * (10 : ℚ) ^ z := by
      have := congrArg (fun n : Nat => (n : ℚ)) h1
      simpa using this
    have hdq : (q.den : ℚ) ≠ 0 := by exact_mod_cast hden.ne'
    have hcq : (c : ℚ) ≠ 0 := by exact_mod_cast hcpos.ne'
    rw [habs, he2, zpow_sub₀ (by norm_num : (10 : ℚ) ≠ 0), zpow_natCast, zpow_natCast, h10,
      ← mul_div_assoc, ← h1q]
    field_simp
    ring

theorem descomponer_isSome (q : ℚ) (h : q.den ∣ 10 ^ q.den) :
    ∃ s e, descomponer q = some (s, e) := by
  obtain ⟨j, hj⟩ := exponenteDecimal_isSome (q.den + 1) 0 q.den q.den (by omega) (by omega)
    (Nat.mod_eq_zero_of_dvd h)
  unfold descomponer
  rw [hj]
  exact ⟨_, _, rfl⟩

/-! ## Reading back the text of a number -/

theorem span_digitos (ds r : List Char) (hds : ∀ c ∈ ds, esDigito 10 c = true)
    (hr : ∀ c t, r = c :: t → esDigito 10 c = false) :
    (ds ++ r).takeWhile (esDigito 10) = ds ∧ (ds ++ r).dropWhile (esDigito 10) = r := by
  induction ds with
  | nil =>
    cases r with
    | nil => simp
    | cons c t => simp [List.takeWhile, List.dropWhile, hr c t rfl]
  | cons d ds ih =>
    have hd := hds d (by simp)
    have := ih (fun c hc => hds c (by simp [hc]))
    simp [List.takeWhile, List.dropWhile, hd, this]

theorem parseFraccion_fin (r : List Char) (hr : ∀ c t, r = c :: t → c ≠ '.') :
    parseFraccion r = some ([], r) := by
  unfold parseFraccion
  split
  · next t => exact absurd rfl (hr '.' t rfl)
  · rfl

theorem parseFraccion_punto (fs r : List Char) (hfs : ∀ c ∈ fs, esDigito 10 c = true)
    (hne : fs ≠ []) (hr : ∀ c t, r = c :: t → esDigito 10 c = false) :
    parseFraccion ('.' :: (fs ++ r)) = some (fs, r) := by
  obtain ⟨h1, h2⟩ := span_digitos fs r hfs hr
  simp only [parseFraccion, h1, h2]
  cases fs with
  | nil => exact absurd rfl hne
  | cons c t => simp

theorem parseExponente_fin (r : List Char) (hr : ∀ c t, r = c :: t → c ≠ 'e' ∧ c ≠ 'E') :
    parseExponente r = some (0, r) := by
  cases r with
  | nil => rfl
  | cons c t =>
    have := hr c t rfl
    simp [parseExponente, this.1, this.2]

theorem parseExponente_e (x : Int) (r : List Char)
    (hr : ∀ c t, r = c :: t → esDigito 10 c = false) :
    parseExponente ('e' :: (if x < 0 then '-' else '+') :: (decimales x.natAbs ++ r)) =
      some (x, r) := by
  obtain ⟨h1, h2⟩ := span_digitos (decimales x.natAbs) r (decimales_digitos _) hr
  have hne : decimales x.natAbs ≠ [] := decimales_ne_nil _
  have hemp : (decimales x.natAbs).isEmpty = false := by
    cases h : decimales x.natAbs with
    | nil => exact absurd h hne
    | cons c t => rfl
  by_cases hx : x < 0
  · simp only [hx, if_true, parseExponente, true_or, leerSigno, h1, h2, hemp,
      Bool.false_eq_true, if_false, decimales_valor]
    congr 2
    omega
  · simp only [hx, if_false, parseExponente, true_or, if_true, leerSigno, h1, h2, hemp,
      Bool.false_eq_true, decimales_valor]
    congr 2
    omega

/-- The parts of a number put one after another are read back part by
part. -/
theorem parseSinSigno_partes (neg : Bool) (ent frac : List Char) (ex : Int) (r1 r2 r3 : List Char)
    (hent : ∀ c ∈ ent, esDigito 10 c = true)
    (hne : ent ≠ [])
    (hcero : ¬ (ent.head? = some '0' ∧ 1 < ent.length))
    (hr1 : ∀ c t, r1 = c :: t → esDigito 10 c = false)
    (hfrac : parseFraccion r1 = some (frac, r2))
    (hex : parseExponente r2 = some (ex, r3)) :
    parseSinSigno neg (ent ++ r1) =
      some (escalar (if neg then -((valorDigitos 10 (ent ++ frac) : Nat) : Int)
        else ((valorDigitos 10 (ent ++ frac) : Nat) : Int)) (ex - frac.length), r3) := by
  obtain ⟨h1, h2⟩ := span_digitos ent r1 hent hr1
  have hemp : ent.isEmpty = false := by
    cases ent with
    | nil => exact absurd rfl hne
    | cons c t => rfl
  unfold parseSinSigno
  simp only [h1, h2, hemp, Bool.false_eq_true, if_false, hcero, hfrac, hex]

theorem finNumero_digito (r : List Char) (hr : finNumero r) :
    ∀ c t, r = c :: t → esDigito 10 c = false := fun c t h => (hr c t h).1

theorem finNumero_punto (r : List Char) (hr : finNumero r) :
    ∀ c t, r = c :: t → c ≠ '.' := fun c t h => (hr c t h).2.1

theorem finNumero_e (r : List Char) (hr : finNumero r) :
    ∀ c t, r = c :: t → c ≠ 'e' ∧ c ≠ 'E' := fun c t h => (hr c t h).2.2

/-- The digits of `s` laid out for the exponent `e` are read back as
`s * 10^e`. -/
theorem parseSinSigno_disponer (neg : Bool) (ds : List Char) (s : Nat) (e : Int) (r : List Char)
    (hds : ∀ c ∈ ds, esDigito 10 c = true)
    (hhead : ∃ c t, ds = c :: t ∧ c ≠ '0')
    (hval : valorDigitos 10 ds = s)
    (hr : finNumero r) :
    ∃ v, parseSinSigno neg (disponer ds (e + ds.length) ++ r) = some (v, r) ∧
      v = (if neg then -(s : ℚ) else (s : ℚ)) * (10 : ℚ) ^ e := by
  obtain ⟨c, t, hct, hc0⟩ := hhead
  have hk : 1 ≤ ds.length := by rw [hct]; simp
  have hsigno : ∀ m : Nat, (((if neg then -((m : Nat) : Int) else ((m : Nat) : Int)) : Int) : ℚ) =
      (if neg then -(m : ℚ) else (m : ℚ)) := by
    intro m; cases neg <;> simp
  unfold disponer
  simp only
  split
  · -- plain digits followed by zeros
    next h =>
    have he : 0 ≤ e := by omega
    obtain ⟨z, hz⟩ := Int.eq_ofNat_of_zero_le he
    have hz2 : (e + ↑ds.length - ↑ds.length).toNat = z := by rw [hz]; simp
    rw [hz2]
    have hp := parseSinSigno_partes neg (ds ++ List.replicate z '0') [] 0 r r r
      (by
        intro x hx
        rcases List.mem_append.mp hx with h1 | h1
        · exact hds x h1
        · rw [List.eq_of_mem_replicate h1]; rfl)
      (by rw [hct]; simp)
      (by rw [hct]; simp [hc0])
      (finNumero_digito r hr)
      (parseFraccion_fin r (finNumero_punto r hr))
      (parseExponente_fin r (finNumero_e r hr))
    rw [hp]
    refine ⟨_, rfl, ?_⟩
    rw [escalar_eq, hsigno, List.append_nil, valorDigitos_append, valorDigitos_ceros, hval, hz]
    simp only [List.length_nil, Nat.cast_zero, sub_zero, zpow_zero, mul_one, add_zero,
      List.length_replicate, zpow_natCast]
    cases neg <;> simp
  · split
    · -- a decimal point inside the digits
      next h1 h =>
      have hn : e + (ds.length : Int) < ds.length := by omega
      obtain ⟨n, hn2⟩ := Int.eq_ofNat_of_zero_le (by omega : 0 ≤ e + (ds.length : Int))
      rw [hn2]
      simp only [Int.toNat_ofNat]
      have hnk : n < ds.length := by omega
      have hn1 : 1 ≤ n := by omega
      have hp := parseSinSigno_partes neg (ds.take n) (ds.drop n) 0
        ('.' :: (ds.drop n ++ r)) r r
        (fun x hx => hds x (List.mem_of_mem_take hx))
        (by rw [hct]; cases n with
          | zero => omega
          | succ m => simp)
        (by rw [hct]; cases n with
          | zero => omega
          | succ m => simp [hc0])
        (by intro x y hxy; simp only [List.cons.injEq] at hxy; rw [← hxy.1]; rfl)
        (parseFraccion_punto (ds.drop n) r (fun x hx => hds x (List.mem_of_mem_drop hx))
          (by
            intro h0
            have := congrArg List.length h0
            simp at this
            omega)
          (finNumero_digito r hr))
        (parseExponente_fin r (finNumero_e r hr))
      have htext : ds.take n ++ '.' :: ds.drop n ++ r = ds.take n ++ '.' :: (ds.drop n ++ r) := by
        simp
      rw [htext, hp]
      refine ⟨_, rfl, ?_⟩
      rw [escalar_eq, hsigno, List.take_append_drop, hval]
      congr 1
      congr 1
      simp only [List.length_drop]
      omega
    · split
      · -- zero, a point, zeros and the digits
        next h1 h2 h =>
        obtain ⟨z, hz⟩ := Int.eq_ofNat_of_zero_le (by omega : 0 ≤ -(e + (ds.length : Int)))
        rw [hz]
        simp only [Int.toNat_ofNat]
        have hp := parseSinSigno_partes neg ['0'] (List.replicate z '0' ++ ds) 0
          ('.' :: ((List.replicate z '0' ++ ds) ++ r)) r r
          (by intro x hx; simp only [List.mem_singleton] at hx; rw [hx]; rfl)
          (by simp)
          (by simp)
          (by intro x y hxy; simp only [List.cons.injEq] at hxy; rw [← hxy.1]; rfl)
          (parseFraccion_punto (List.replicate z '0' ++ ds) r
            (by
              intro x hx
              rcases List.mem_append.mp hx with h3 | h3
              · rw [List.eq_of_mem_replicate h3]; rfl
              · exact hds x h3)
            (by rw [hct]; simp)
            (finNumero_digito r hr))
          (parseExponente_fin r (finNumero_e r hr))
        have htext : '0' :: '.' :: (List.replicate z '0' ++ ds) ++ r =
            ['0'] ++ '.' :: ((List.replicate z '0' ++ ds) ++ r) := by simp
        rw [htext, hp]
        refine ⟨_, rfl, ?_⟩
        have hv : valorDigitos 10 (['0'] ++ (List.replicate z '0' ++ ds)) = s := by
          have : ['0'] ++ (List.replicate z '0' ++ ds) = List.replicate (z + 1) '0' ++ ds := by
            rw [List.replicate_succ]; simp
          rw [this, valorDigitos_append, valorDigitos_ceros, hval]
          simp
        rw [escalar_eq, hsigno, hv]
        congr 1
        congr 1
        simp only [List.length_append, List.length_replicate, Nat.cast_add]
        omega
      · -- exponent notation
        next h1 h2 h3 =>
        have hx := parseExponente_e (e + (ds.length : Int) - 1) r (finNumero_digito r hr)
        cases t with
        | nil =>
          subst hct
          have hp := parseSinSigno_partes neg [c] [] (e + (([c] : List Char).length : Int) - 1)
            ('e' :: (if e + (([c] : List Char).length : Int) - 1 < 0 then '-' else '+') ::
              (decimales (e + (([c] : List Char).length : Int) - 1).natAbs ++ r))
            _ r hds (by simp) (by simp)
            (by intro x y hxy; simp only [List.cons.injEq] at hxy; rw [← hxy.1]; rfl)
            (parseFraccion_fin _ (by
              intro x y hxy; simp only [List.cons.injEq] at hxy; rw [← hxy.1]; decide))
            hx
          have htext : [c] ++ 'e' :: (if e + (([c] : List Char).length : Int) - 1 < 0 then '-'
              else '+') :: decimales (e + (([c] : List Char).length : Int) - 1).natAbs ++ r =
              [c] ++ 'e' :: (if e + (([c] : List Char).length : Int) - 1 < 0 then '-' else '+') ::
                (decimales (e + (([c] : List Char).length : Int) - 1).natAbs ++ r) := by simp
          rw [htext, hp]
          refine ⟨_, rfl, ?_⟩
          rw [escalar_eq, hsigno, List.append_nil, hval]
          congr 1
          congr 1
          simp
        | cons d t =>
          subst hct
          have hp := parseSinSigno_partes neg [c] (d :: t)
            (e + ((c :: d :: t : List Char).length : Int) - 1)
            ('.' :: ((d :: t) ++ ('e' ::
              (if e + ((c :: d :: t : List Char).length : Int) - 1 < 0 then '-' else '+') ::
              (decimales (e + ((c :: d :: t : List Char).length : Int) - 1).natAbs ++ r))))
            _ r (fun x hx => hds x (by simp only [List.mem_singleton] at hx; simp [hx]))
            (by simp) (by simp)
            (by intro x y hxy; simp only [List.cons.injEq] at hxy; rw [← hxy.1]; rfl)
            (parseFraccion_punto (d :: t) _ (fun x hx => hds x (List.mem_cons_of_mem _ hx))
              (by simp)
              (by intro x y hxy; simp only [List.cons.injEq] at hxy; rw [← hxy.1]; rfl))
            hx
          have htext : (c :: '.' :: d :: t) ++ 'e' ::
              (if e + ((c :: d :: t : List Char).length : Int) - 1 < 0 then '-' else '+') ::
              decimales (e + ((c :: d :: t : List Char).length : Int) - 1).natAbs ++ r =
              [c] ++ '.' :: ((d :: t) ++ ('e' ::
              (if e + ((c :: d :: t : List Char).length : Int) - 1 < 0 then '-' else '+') ::
              (decimales (e + ((c :: d :: t : List Char).length : Int) - 1).natAbs ++ r))) := by
            simp
          rw [htext, hp]
          refine ⟨_, rfl, ?_⟩
          rw [escalar_eq, hsigno]
          have : [c] ++ d :: t = c :: d :: t := rfl
          rw [this, hval]
          congr 1
          congr 1
          simp only [List.length_cons, Nat.cast_add, Nat.cast_one]
          omega

theorem disponer_head (ds : List Char) (n : Int) (hds : ∀ c ∈ ds, esDigito 10 c = true)
    (hne : ds ≠ []) : ∃ x y, disponer ds n = x :: y ∧ esDigito 10 x = true := by
  cases ds with
  | nil => exact absurd rfl hne
  | cons c t =>
    have hc := hds c (by simp)
    unfold disponer
    simp only
    split
    · exact ⟨c, _, rfl, hc⟩
    · split
      · next h1 h =>
        obtain ⟨m, hm⟩ := Int.eq_ofNat_of_zero_le (by omega : 0 ≤ n)
        subst hm
        cases m with
        | zero => omega
        | succ m => exact ⟨c, List.take m t ++ '.' :: List.drop m t, by simp, hc⟩
      · split
        · exact ⟨'0', _, rfl, rfl⟩
        · cases t with
          | nil => exact ⟨c, _, rfl, hc⟩
          | cons d t => exact ⟨c, _, rfl, hc⟩

theorem parseNumero_digito (x : Char) (y : List Char) (hx : esDigito 10 x = true) :
    parseNumero (x :: y) = parseSinSigno false (x :: y) := by
  unfold parseNumero
  split
  · next r heq =>
    simp only [List.cons.injEq] at heq
    rw [heq.1] at hx
    exact absurd hx (by decide)
  · rfl

/-- The text of a number whose value is a decimal fraction begins with a
digit or a minus sign. -/
theorem numeroATexto_head (q : ℚ) (hd : q.den ∣ 10 ^ q.den) :
    ∃ x y, numeroATexto q = x :: y ∧ (x = '-' ∨ esDigito 10 x = true) := by
  unfold numeroATexto
  split
  · exact ⟨'0', [], rfl, Or.inr rfl⟩
  · obtain ⟨s, e, hse⟩ := descomponer_isSome q hd
    rw [hse]
    simp only
    split
    · exact ⟨'-', _, rfl, Or.inl rfl⟩
    · obtain ⟨x, y, hxy, hx⟩ := disponer_head (decimales s) (e + ((decimales s).length : Int))
        (decimales_digitos s) (decimales_ne_nil s)
      exact ⟨x, y, hxy, Or.inr hx⟩

/-- The text of a number whose value is a decimal fraction is read back as
that number. -/
theorem parseNumero_numeroATexto (q : ℚ) (hd : q.den ∣ 10 ^ q.den) (r : List Char)
    (hr : finNumero r) : parseNumero (numeroATexto q ++ r) = some (q, r) := by
  unfold numeroATexto
  split
  · next h0 =>
    subst h0
    have hp := parseSinSigno_partes false ['0'] [] 0 r r r
      (by intro x hx; simp only [List.mem_singleton] at hx; rw [hx]; rfl)
      (by simp) (by simp) (finNumero_digito r hr)
      (parseFraccion_fin r (finNumero_punto r hr))
      (parseExponente_fin r (finNumero_e r hr))
    rw [show ['0'] ++ r = '0' :: r from rfl] at hp ⊢
    rw [parseNumero_digito '0' r rfl, hp]
    simp [escalar_eq, valorDigitos, valorDigito]
  · next h0 =>
    obtain ⟨s, e, hse⟩ := descomponer_isSome q hd
    rw [hse]
    simp only
    obtain ⟨habs, hs⟩ := descomponer_spec q s e hse h0
    split
    · next hneg =>
      obtain ⟨v, hv, hval⟩ := parseSinSigno_disponer true (decimales s) s e r
        (decimales_digitos s) (decimales_head s hs) (decimales_valor s) hr
      show parseNumero ('-' :: (disponer (decimales s) (e + ((decimales s).length : Int)) ++ r)) = _
      simp only [parseNumero, hv, hval]
      rw [abs_of_neg hneg] at habs
      simp only [if_true]
      congr 2
      rw [neg_mul, ← habs, neg_neg]
    · next hneg =>
      obtain ⟨v, hv, hval⟩ := parseSinSigno_disponer false (decimales s) s e r
        (decimales_digitos s) (decimales_head s hs) (decimales_valor s) hr
      obtain ⟨x, y, hxy, hx⟩ := disponer_head (decimales s) (e + ((decimales s).length : Int))
        (decimales_digitos s) (decimales_ne_nil s)
      rw [hxy] at hv ⊢
      rw [List.cons_append, parseNumero_digito x _ hx]
      rw [List.cons_append] at hv
      rw [hv, hval]
      rw [abs_of_nonneg (not_lt.mp hneg)] at habs
      simp only [Bool.false_eq_true, if_false]
      rw [habs]

/-! ## Reading back a quoted text -/

theorem unidadHex_control (n : Nat) (h : n < 32) :
    unidadHex '0' '0' (cifraHex (n / 16)) (cifraHex (n % 16)) = some n := by
  interval_cases n <;> rfl

theorem char_of_toNat (c : Char) (n : Nat) (h : c.toNat = n) : c = Char.ofNat n := by
  rw [← h, Char.ofNat_toNat]

theorem parseCadena_comilla (r : List Char) : parseCadena ('"' :: r) = some ([], r) := by
  unfold parseCadena
  simp

theorem parseCadena_escape (e k : Char) (r r3 : List Char) (ps : List Pieza) (he : e ≠ 'u')
    (hk : escapeSimple e = some k) (hp : parseCadena r = some (ps, r3)) :
    parseCadena ('\\' :: e :: r) = some (.car k :: ps, r3) := by
  unfold parseCadena
  simp [he, hk, hp]

theorem parseCadena_unidad (a b x d : Char) (n : Nat) (r r3 : List Char) (ps : List Pieza)
    (hn : unidadHex a b x d = some n) (hp : parseCadena r = some (ps, r3)) :
    parseCadena ('\\' :: 'u' :: a :: b :: x :: d :: r) = some (.unidad n :: ps, r3) := by
  unfold parseCadena
  simp [hn, hp]

theorem parseCadena_car (c : Char) (r r3 : List Char) (ps : List Pieza) (h1 : c ≠ '"')
    (h2 : c ≠ '\\') (h3 : ¬ c.toNat < 32) (hp : parseCadena r = some (ps, r3)) :
    parseCadena (c :: r) = some (.car c :: ps, r3) := by
  unfold parseCadena
  simp [h1, h2, h3, hp]

/-- The quoted form of a text, followed by the closing quote, is read back
as the pieces of the text. -/
theorem parseCadena_citarCuerpo (cs r : List Char) :
    parseCadena (citarCuerpo cs ++ '"' :: r) = some (piezasDe cs, r) := by
  induction cs with
  | nil => exact parseCadena_comilla r
  | cons c cs ih =>
    simp only [citarCuerpo, citarCaracter, piezasDe]
    by_cases h1 : c = '"'
    · subst h1
      exact parseCadena_escape _ _ _ _ _ (by decide) (by decide) ih
    by_cases h2 : c = '\\'
    · subst h2
      exact parseCadena_escape _ _ _ _ _ (by decide) (by decide) ih
    by_cases h3 : c.toNat = 8
    · have := char_of_toNat c 8 h3
      subst this
      exact parseCadena_escape _ _ _ _ _ (by decide) (by decide) ih
    by_cases h4 : c.toNat = 9
    · have := char_of_toNat c 9 h4
      subst this
      exact parseCadena_escape _ _ _ _ _ (by decide) (by decide) ih
    by_cases h5 : c.toNat = 10
    · have := char_of_toNat c 10 h5
      subst this
      exact parseCadena_escape _ _ _ _ _ (by decide) (by decide) ih
    by_cases h6 : c.toNat = 12
    · have := char_of_toNat c 12 h6
      subst this
      exact parseCadena_escape _ _ _ _ _ (by decide) (by decide) ih
    by_cases h7 : c.toNat = 13
    · have := char_of_toNat c 13 h7
      subst this
      exact parseCadena_escape _ _ _ _ _ (by decide) (by decide) ih
    by_cases h8 : c.toNat < 32
    · simp only [h1, h2, h3, h4, h5, h6, h7, h8, if_false, if_true, List.cons_append,
        List.nil_append, ne_eq, not_false_eq_true, and_self]
      exact parseCadena_unidad _ _ _ _ _ _ _ _ (unidadHex_control c.toNat h8) ih
    · simp only [h1, h2, h3, h4, h5, h6, h7, h8, if_false, List.cons_append,
        List.nil_append, false_and]
      exact parseCadena_car c _ _ _ h1 h2 h8 ih

/-- The pieces of a text stand for the text. -/
theorem decodificar_piezasDe (cs : List Char) : decodificar (piezasDe cs) = cs := by
  induction cs with
  | nil => rfl
  | cons c cs ih =>
    simp only [piezasDe]
    split
    · next h =>
      have h32 : c.toNat < 32 := h.1
      have hc : Char.ofNat c.toNat = c := Char.ofNat_toNat c
      cases hp : piezasDe cs with
      | nil =>
        rw [hp] at ih
        simp only [decodificar] at ih ⊢
        rw [if_neg (by omega), hc, ih]
      | cons p ps =>
        rw [hp] at ih
        cases p with
        | car d =>
          simp only [decodificar] at ih ⊢
          rw [if_neg (by omega), hc, ih]
        | unidad l =>
          simp only [decodificar]
          rw [if_neg (by omega), if_neg (by omega), hc, ih]
    · simp only [decodificar, ih]

theorem mk_decodificar_piezasDe (s : String) : String.mk (decodificar (piezasDe s.data)) = s := by
  rw [decodificar_piezasDe]

/-! ## Reading back the text of a collection -/

theorem esDigito_noBlanco (x : Char) (h : x = '-' ∨ esDigito 10 x = true) :
    esBlanco x = false ∧ (x = '-' ∨ esDigito 10 x = true) := by
  refine ⟨?_, h⟩
  rcases h with h | h
  · subst h; rfl
  · cases hb : esBlanco x with
    | false => rfl
    | true =>
      simp only [esBlanco, Bool.or_eq_true, beq_iff_eq] at hb
      rcases hb with ((hb | hb) | hb) | hb <;> (subst hb; exact absurd h (by decide))

/-- After one space, the text of a number whose value is a decimal fraction
is read back as that number. -/
theorem parseValor_numero (f : Nat) (q : ℚ) (hd : q.den ∣ 10 ^ q.den) (r : List Char)
    (hr : finNumero r) :
    parseValor (f + 1) (' ' :: (numeroATexto q ++ r)) = some (.num (.fin q), r) := by
  obtain ⟨x, y, hxy, hx⟩ := numeroATexto_head q hd
  have hp := parseNumero_numeroATexto q hd r hr
  rw [hxy] at hp ⊢
  obtain ⟨hb, hx2⟩ := esDigito_noBlanco x hx
  have hs : saltarBlancos (' ' :: (x :: y ++ r)) = x :: (y ++ r) := by
    have h1 : esBlanco ' ' = true := rfl
    simp only [saltarBlancos, List.cons_append, List.dropWhile, h1, hb]
    rfl
  unfold parseValor
  simp only [hs]
  rw [List.cons_append] at hp
  simp only [hx2, if_true, hp]

/-- After one space, the quoted form of a text is read back as that text. -/
theorem parseValor_cadena (f : Nat) (s : String) (r : List Char) :
    parseValor (f + 1) (' ' :: (citar s ++ r)) = some (.str s, r) := by
  have hs : saltarBlancos (' ' :: (citar s ++ r)) = '"' :: (citarCuerpo s.data ++ '"' :: r) := by
    simp [saltarBlancos, List.dropWhile, esBlanco, citar]
  unfold parseValor
  simp only [hs]
  have h1 : ¬ ('"' = '-' ∨ esDigito 10 '"' = true) := by decide
  simp only [h1, if_false, if_true, parseCadena_citarCuerpo, decodificar_piezasDe]

theorem citar_append (k : String) (r : List Char) :
    citar k ++ r = '"' :: (citarCuerpo k.data ++ '"' :: r) := by
  simp [citar]

/-- One field followed by a comma: the field is put and the reading goes on
after the comma. -/
theorem parseMiembros_campo (f : Nat) (k : String) (v : Valor) (tv : List Char)
    (acc : List (String × Valor)) (resto : List Char)
    (hv : parseValor f (' ' :: (tv ++ ',' :: resto)) = some (v, ',' :: resto)) :
    parseMiembros (f + 1)
        ('\n' :: ' ' :: ' ' :: ' ' :: ' ' :: (citar k ++ ':' :: ' ' :: (tv ++ ',' :: resto))) acc =
      parseMiembros f resto (poner acc k v) := by
  rw [citar_append]
  have hs : saltarBlancos ('\n' :: ' ' :: ' ' :: ' ' :: ' ' ::
      '"' :: (citarCuerpo k.data ++ '"' :: ':' :: ' ' :: (tv ++ ',' :: resto))) =
      '"' :: (citarCuerpo k.data ++ '"' :: ':' :: ' ' :: (tv ++ ',' :: resto)) := rfl
  have hs2 : saltarBlancos (':' :: ' ' :: (tv ++ ',' :: resto)) =
      ':' :: ' ' :: (tv ++ ',' :: resto) := rfl
  have hs3 : saltarBlancos (',' :: resto) = ',' :: resto := rfl
  rw [parseMiembros]
  simp only [hs, parseCadena_citarCuerpo, hs2, hv, hs3, decodificar_piezasDe]

/-- The last field followed by the closing brace of an object of the
collection: the object is complete. -/
theorem parseMiembros_ultimo (f : Nat) (k : String) (v : Valor) (tv : List Char)
    (acc : List (String × Valor)) (resto : List Char)
    (hv : parseValor f (' ' :: (tv ++ '\n' :: ' ' :: ' ' :: '}' :: resto)) =
      some (v, '\n' :: ' ' :: ' ' :: '}' :: resto)) :
    parseMiembros (f + 1)
        ('\n' :: ' ' :: ' ' :: ' ' :: ' ' ::
          (citar k ++ ':' :: ' ' :: (tv ++ '\n' :: ' ' :: ' ' :: '}' :: resto))) acc =
      some (.obj (poner acc k v), resto) := by
  rw [citar_append]
  have hs : saltarBlancos ('\n' :: ' ' :: ' ' :: ' ' :: ' ' ::
      '"' :: (citarCuerpo k.data ++ '"' :: ':' :: ' ' ::
        (tv ++ '\n' :: ' ' :: ' ' :: '}' :: resto))) =
      '"' :: (citarCuerpo k.data ++ '"' :: ':' :: ' ' ::
        (tv ++ '\n' :: ' ' :: ' ' :: '}' :: resto)) := rfl
  have hs2 : saltarBlancos (':' :: ' ' :: (tv ++ '\n' :: ' ' :: ' ' :: '}' :: resto)) =
      ':' :: ' ' :: (tv ++ '\n' :: ' ' :: ' ' :: '}' :: resto) := rfl
  have hs3 : saltarBlancos ('\n' :: ' ' :: ' ' :: '}' :: resto) = '}' :: resto := rfl
  rw [parseMiembros]
  simp only [hs, parseCadena_citarCuerpo, hs2, hv, hs3, decodificar_piezasDe]

theorem finNumero_coma (r : List Char) : finNumero (',' :: r) := by
  intro c t h
  simp only [List.cons.injEq] at h
  rw [← h.1]
  decide

theorem finNumero_linea (r : List Char) : finNumero ('\n' :: r) := by
  intro c t h
  simp only [List.cons.injEq] at h
  rw [← h.1]
  decide

theorem poner_nuevo (acc : List (String × Valor)) (k : String) (v : Valor)
    (h1 : acc.any (fun p => p.1 == k) = false) (h2 : indiceDe k = none) :
    poner acc k v = acc ++ [(k, v)] := by
  simp [poner, h1, h2]

/-- The text of a task at the indentation of the elements of the
collection, field by field. -/
theorem serializar_tarea (t : Tarea) (q : ℚ) (hq : t.costo = .fin q) (r : List Char) :
    serializar [' ', ' '] t.aValor ++ r =
      '{' :: '\n' :: ' ' :: ' ' :: ' ' :: ' ' :: (citar "id" ++ ':' :: ' ' ::
        (numeroATexto t.id ++ ',' ::
      '\n' :: ' ' :: ' ' :: ' ' :: ' ' :: (citar "titulo" ++ ':' :: ' ' ::
        (citar t.titulo ++ ',' ::
      '\n' :: ' ' :: ' ' :: ' ' :: ' ' :: (citar "descripcion" ++ ':' :: ' ' ::
        (citar t.descripcion ++ ',' ::
      '\n' :: ' ' :: ' ' :: ' ' :: ' ' :: (citar "estado" ++ ':' :: ' ' ::
        (numeroATexto t.estado ++ ',' ::
      '\n' :: ' ' :: ' ' :: ' ' :: ' ' :: (citar "dificultad" ++ ':' :: ' ' ::
        (numeroATexto t.dificultad ++ ',' ::
      '\n' :: ' ' :: ' ' :: ' ' :: ' ' :: (citar "fechaCreacion" ++ ':' :: ' ' ::
        (citar t.fechaCreacion ++ ',' ::
      '\n' :: ' ' :: ' ' :: ' ' :: ' ' :: (citar "fechaVencimiento" ++ ':' :: ' ' ::
        (citar t.fechaVencimiento ++ ',' ::
      '\n' :: ' ' :: ' ' :: ' ' :: ' ' :: (citar "fechaEdicion" ++ ':' :: ' ' ::
        (citar t.fechaEdicion ++ ',' ::
      '\n' :: ' ' :: ' ' :: ' ' :: ' ' :: (citar "costo" ++ ':' :: ' ' ::
        (numeroATexto q ++ '\n' :: ' ' :: ' ' :: '}' :: r)))))))))))))))))) := by
  simp only [Tarea.aValor, serializar, serializarCampos, unir, hq, List.append_assoc,
    List.cons_append, List.nil_append, List.singleton_append]

theorem poner_campos (v1 v2 v3 v4 v5 v6 v7 v8 v9 : Valor) :
    poner (poner (poner (poner (poner (poner (poner (poner (poner [] "id" v1) "titulo" v2)
      "descripcion" v3) "estado" v4) "dificultad" v5) "fechaCreacion" v6)
      "fechaVencimiento" v7) "fechaEdicion" v8) "costo" v9 =
    [("id", v1), ("titulo", v2), ("descripcion", v3), ("estado", v4), ("dificultad", v5),
      ("fechaCreacion", v6), ("fechaVencimiento", v7), ("fechaEdicion", v8), ("costo", v9)] := by
  rfl

theorem den_entero (n : Int) : ((n : ℚ)).den ∣ 10 ^ ((n : ℚ)).den := by
  simp

set_option maxRecDepth 4000 in
/-- The text of a task whose cost is a decimal fraction is read back as the
task. -/
theorem parseValor_tarea (f : Nat) (t : Tarea) (ht : t.costo.esDecimal = true) (r : List Char) :
    parseValor (f + 11) ('\n' :: ' ' :: ' ' :: (serializar [' ', ' '] t.aValor ++ r)) =
      some (t.aValor, r) := by
  have hcosto : ∃ q, t.costo = JSNumber.fin q ∧ (q.den ∣ 10 ^ q.den) := by
    cases hc : t.costo with
    | nan => rw [hc] at ht; simp [JSNumber.esDecimal] at ht
    | inf neg => rw [hc] at ht; simp [JSNumber.esDecimal] at ht
    | fin q =>
      rw [hc] at ht
      exact ⟨q, rfl, by simpa [JSNumber.esDecimal] using ht⟩
  obtain ⟨q, hq, hd⟩ := hcosto
  rw [serializar_tarea t q hq r]
  rw [parseValor]
  have hs : ∀ x : List Char, saltarBlancos ('\n' :: ' ' :: ' ' :: '{' :: x) = '{' :: x :=
    fun _ => rfl
  have hs2 : ∀ (k : String) (x : List Char),
      saltarBlancos ('\n' :: ' ' :: ' ' :: ' ' :: ' ' :: (citar k ++ x)) =
        '"' :: (citarCuerpo k.data ++ '"' :: x) := by
    intro k x
    rw [citar_append]
    rfl
  have h1 : ¬ ('{' = '-' ∨ esDigito 10 '{' = true) := by decide
  have h2 : ¬ ('{' = '"') := by decide
  have h3 : ¬ ('{' = '[') := by decide
  simp only [hs, h1, h2, h3, if_false, if_true, hs2]
  rw [parseMiembros_campo (f + 9) "id" (.num (.fin t.id)) _ _ _
    (parseValor_numero (f + 8) _ (den_entero _) _ (finNumero_coma _))]
  rw [parseMiembros_campo (f + 8) "titulo" (.str t.titulo) _ _ _ (parseValor_cadena (f + 7) _ _)]
  rw [parseMiembros_campo (f + 7) "descripcion" (.str t.descripcion) _ _ _
    (parseValor_cadena (f + 6) _ _)]
  rw [parseMiembros_campo (f + 6) "estado" (.num (.fin t.estado)) _ _ _
    (parseValor_numero (f + 5) _ (den_entero _) _ (finNumero_coma _))]
  rw [parseMiembros_campo (f + 5) "dificultad" (.num (.fin t.dificultad)) _ _ _
    (parseValor_numero (f + 4) _ (den_entero _) _ (finNumero_coma _))]
  rw [parseMiembros_campo (f + 4) "fechaCreacion" (.str t.fechaCreacion) _ _ _
    (parseValor_cadena (f + 3) _ _)]
  rw [parseMiembros_campo (f + 3) "fechaVencimiento" (.str t.fechaVencimiento) _ _ _
    (parseValor_cadena (f + 2) _ _)]
  rw [parseMiembros_campo (f + 2) "fechaEdicion" (.str t.fechaEdicion) _ _ _
    (parseValor_cadena (f + 1) _ _)]
  rw [parseMiembros_ultimo (f + 1) "costo" (.num (.fin q)) _ _ _
    (parseValor_numero f _ hd _ (finNumero_linea _))]
  rw [poner_campos]
  simp only [Tarea.aValor, hq]
  rfl

theorem serializarLista_cons (s : List Char) (t : Tarea) (ts : List Tarea) :
    serializarLista s ((t :: ts).map Tarea.aValor) =
      serializar s t.aValor :: serializarLista s (ts.map Tarea.aValor) := by
  simp only [List.map_cons, serializarLista]

/-- The texts of the tasks of a collection whose costs are decimal
fractions, separated as `JSON.stringify` separates them and followed by the
closing bracket, are read back as the tasks. -/
theorem parseElementos_tareas (ts : List Tarea) (t0 : Tarea)
    (h : ∀ t ∈ t0 :: ts, t.costo.esDecimal = true) (acc : List Valor) (f : Nat)
    (r : List Char) :
    parseElementos (f + ts.length + 12)
        ('\n' :: ' ' :: ' ' ::
          (unir [',', '\n', ' ', ' '] (serializarLista [' ', ' '] ((t0 :: ts).map Tarea.aValor)) ++
            '\n' :: ']' :: r)) acc =
      some (.arr (acc ++ (t0 :: ts).map Tarea.aValor), r) := by
  induction ts generalizing t0 acc with
  | nil =>
    have hs : saltarBlancos ('\n' :: ']' :: r) = ']' :: r := rfl
    simp only [List.map_cons, List.map_nil, serializarLista, unir, List.length_nil, Nat.add_zero]
    rw [parseElementos, parseValor_tarea f t0 (h t0 (by simp))]
    simp only [hs]
  | cons t1 ts ih =>
    have hlen : f + (t1 :: ts).length + 12 = (f + ts.length + 1 + 11) + 1 := by
      simp only [List.length_cons]
      omega
    have htext : '\n' :: ' ' :: ' ' ::
        (unir [',', '\n', ' ', ' ']
          (serializarLista [' ', ' '] ((t0 :: t1 :: ts).map Tarea.aValor)) ++
          '\n' :: ']' :: r) =
        '\n' :: ' ' :: ' ' :: (serializar [' ', ' '] t0.aValor ++ (',' :: '\n' :: ' ' :: ' ' ::
          (unir [',', '\n', ' ', ' ']
            (serializarLista [' ', ' '] ((t1 :: ts).map Tarea.aValor)) ++ '\n' :: ']' :: r))) := by
      rw [serializarLista_cons, serializarLista_cons]
      simp only [unir, List.append_assoc, List.cons_append, List.nil_append]
    have hs : ∀ x : List Char, saltarBlancos (',' :: x) = ',' :: x := fun _ => rfl
    rw [hlen, htext, parseElementos, parseValor_tarea (f + ts.length + 1) t0 (h t0 (by simp))]
    simp only [hs]
    have hlen2 : f + ts.length + 1 + 11 = f + ts.length + 12 := by omega
    rw [hlen2, ih t1 (fun t ht => h t (List.mem_cons_of_mem _ ht))]
    simp

theorem serializar_tarea_length (t : Tarea) : 13 ≤ (serializar [' ', ' '] t.aValor).length := by
  simp only [Tarea.aValor, serializar, serializarCampos, unir, List.length_append,
    List.length_cons, List.length_nil]
  omega

theorem unir_length (ts : List Tarea) :
    13 * ts.length ≤
      (unir [',', '\n', ' ', ' '] (serializarLista [' ', ' '] (ts.map Tarea.aValor))).length := by
  induction ts with
  | nil => simp
  | cons t ts ih =>
    rw [serializarLista_cons]
    have ht := serializar_tarea_length t
    cases ts with
    | nil =>
      simp only [List.map_nil, serializarLista, unir, List.length_cons, List.length_nil]
      omega
    | cons u us =>
      rw [serializarLista_cons] at ih ⊢
      simp only [unir, List.length_append, List.length_cons] at ih ⊢
      omega

theorem serializar_tarea_head (t : Tarea) :
    ∃ x, serializar [' ', ' '] t.aValor = '{' :: x := by
  simp only [Tarea.aValor, serializar, serializarCampos, unir, List.cons_append, List.cons.injEq,
    true_and, exists_eq']

/-- The text that `JSON.stringify` writes for a collection whose costs are
decimal fractions is read back by `JSON.parse` as the collection. -/
theorem parse_stringify (tareas : List Tarea) (h : ∀ t ∈ tareas, t.costo.esDecimal = true) :
    JSON.parse (JSON.stringify (coleccion tareas)) = some (coleccion tareas) := by
  cases tareas with
  | nil => rfl
  | cons t0 ts =>
    obtain ⟨x, hx⟩ := serializar_tarea_head t0
    have htexto : serializar [] (coleccion (t0 :: ts)) =
        '[' :: '\n' :: ' ' :: ' ' ::
          (unir [',', '\n', ' ', ' ']
            (serializarLista [' ', ' '] ((t0 :: ts).map Tarea.aValor)) ++ '\n' :: ']' :: []) := by
      simp only [coleccion, serializar, serializarLista_cons, List.nil_append, List.cons_append,
        List.append_assoc]
    have hlen := unir_length (t0 :: ts)
    have hhead : ∃ y, '\n' :: ' ' :: ' ' ::
        (unir [',', '\n', ' ', ' ']
          (serializarLista [' ', ' '] ((t0 :: ts).map Tarea.aValor)) ++ '\n' :: ']' :: []) =
        '\n' :: ' ' :: ' ' :: '{' :: y := by
      rw [serializarLista_cons, hx]
      cases ts with
      | nil =>
        exact ⟨x ++ ['\n', ']'], by
          simp only [List.map_nil, serializarLista, unir, List.cons_append]⟩
      | cons u us =>
        exact ⟨x ++ [',', '\n', ' ', ' '] ++
          unir [',', '\n', ' ', ' ']
            (serializar [' ', ' '] u.aValor :: serializarLista [' ', ' '] (us.map Tarea.aValor)) ++
          ['\n', ']'], by rw [serializarLista_cons]; simp only [unir, List.cons_append]⟩
    obtain ⟨y, hy⟩ := hhead
    have hs : saltarBlancos ('\n' :: ' ' :: ' ' :: '{' :: y) = '{' :: y := rfl
    have hs0 : ∀ z : List Char, saltarBlancos ('[' :: z) = '[' :: z := fun _ => rfl
    unfold JSON.parse JSON.stringify
    simp only [String.length, htexto]
    obtain ⟨f, hf⟩ : ∃ f, ('[' :: '\n' :: ' ' :: ' ' ::
          (unir [',', '\n', ' ', ' ']
            (serializarLista [' ', ' '] ((t0 :: ts).map Tarea.aValor)) ++
              '\n' :: ']' :: [])).length = f + ts.length + 12 := by
      refine ⟨('[' :: '\n' :: ' ' :: ' ' ::
          (unir [',', '\n', ' ', ' ']
            (serializarLista [' ', ' '] ((t0 :: ts).map Tarea.aValor)) ++
              '\n' :: ']' :: [])).length - ts.length - 12, ?_⟩
      simp only [List.length_cons, List.length_append] at hlen ⊢
      omega
    rw [hf, parseValor]
    have h1 : ¬ ('[' = '-' ∨ esDigito 10 '[' = true) := by decide
    have h2 : ¬ ('[' = '"') := by decide
    simp only [hs0, h1, h2, if_false, if_true]
    rw [hy, hs, ← hy, parseElementos_tareas ts t0 h [] f []]
    rfl

theorem dvd_pow_self_of_dvd_pow (d k : Nat) (h : d ∣ 10 ^ k) : d ∣ 10 ^ d := by
  have hd : d ≠ 0 := by
    rintro rfl
    simp at h
  rw [← Nat.factorization_le_iff_dvd hd (by positivity)] at h ⊢
  intro p
  have hp := h p
  rw [Nat.factorization_pow] at hp ⊢
  simp only [Finsupp.smul_apply, smul_eq_mul] at hp ⊢
  rcases Nat.eq_zero_or_pos ((10 : Nat).factorization p) with h0 | h0
  · rw [h0] at hp ⊢
    simpa using hp
  · calc d.factorization p ≤ d := (Nat.factorization_lt p hd).le
      _ ≤ d * (10 : Nat).factorization p := Nat.le_mul_of_pos_right _ h0

theorem escalar_den (m e : Int) : (escalar m e).den ∣ 10 ^ (escalar m e).den := by
  unfold escalar
  split
  · rw [Rat.den_intCast]
    simp
  · apply dvd_pow_self_of_dvd_pow _ (-e).toNat
    have h := Rat.den_dvd m ((10 ^ (-e).toNat : Nat) : Int)
    rw [← Rat.mkRat_eq_divInt] at h
    exact_mod_cast h

/-- The number read by `parseFloat` is `NaN`, an infinity or a decimal
fraction. -/
theorem parseFloat_esDecimal (texto : String) :
    parseFloat texto = .nan ∨ (∃ neg, parseFloat texto = .inf neg) ∨
      (parseFloat texto).esDecimal = true := by
  unfold parseFloat
  rcases leerSigno (trimStart texto.data) with ⟨neg, s⟩
  simp only
  split
  · exact Or.inr (Or.inl ⟨neg, rfl⟩)
  · split
    · exact Or.inl rfl
    · right; right
      simp only [JSNumber.esDecimal, decide_eq_true_eq]
      exact escalar_den _ _

/-- The cost stored by `agregarTarea` is an infinity or a decimal
fraction. -/
theorem leerCosto_esDecimal (costoStr : String) :
    (∃ neg, leerCosto costoStr = .inf neg) ∨ (leerCosto costoStr).esDecimal = true := by
  unfold leerCosto
  simp only
  split
  · next ht =>
    rcases parseFloat_esDecimal costoStr with h | h | h
    · rw [h] at ht; simp [JSNumber.truthy] at ht
    · exact Or.inl h
    · exact Or.inr h
  · right
    simp [JSNumber.esDecimal]

theorem editarCampos_costo (ahora nuevoTitulo nuevaDesc estadoStr : String) (t : Tarea) :
    (editarCampos ahora nuevoTitulo nuevaDesc estadoStr t).costo = t.costo := by
  unfold editarCampos
  simp only
  split <;> split <;> split <;> (try split) <;> rfl

theorem map_costo_modify (f : Tarea → Tarea) (hf : ∀ t, (f t).costo = t.costo) (i : Nat)
    (l : List Tarea) : (l.modify f i).map (fun t => t.costo) = l.map (fun t => t.costo) := by
  induction l generalizing i with
  | nil => cases i <;> rfl
  | cons a as ih =>
    cases i with
    | zero => simp [List.modify_zero_cons, hf]
    | succ j => simp [List.modify_succ_cons, ih]

/-- Every operation keeps the costs of the collection infinite or decimal
fractions. -/
theorem ejecutar_costos (lower : String → String) (op : Operacion) (tareas : List Tarea)
    (h : ∀ t ∈ tareas, (∃ neg, t.costo = .inf neg) ∨ t.costo.esDecimal = true) :
    ∀ t ∈ ejecutar lower op tareas, (∃ neg, t.costo = .inf neg) ∨ t.costo.esDecimal = true := by
  cases op with
  | agregar r =>
    intro t ht
    simp only [ejecutar, agregarTarea_eq] at ht
    rcases List.mem_append.mp ht with h1 | h1
    · exact h t h1
    · simp only [List.mem_singleton] at h1
      subst h1
      exact leerCosto_esDecimal r.costoStr
  | editar ahora id nuevoTitulo nuevaDesc estadoStr =>
    intro t ht
    have hmem : t.costo ∈ (editarTarea ahora id nuevoTitulo nuevaDesc estadoStr tareas).map
        (fun t => t.costo) := List.mem_map_of_mem _ ht
    have hmap : (editarTarea ahora id nuevoTitulo nuevaDesc estadoStr tareas).map
        (fun t => t.costo) = tareas.map (fun t => t.costo) := by
      unfold editarTarea
      split
      · rfl
      · exact map_costo_modify _ (editarCampos_costo _ _ _ _) _ _
    rw [hmap] at hmem
    obtain ⟨u, hu, hc⟩ := List.mem_map.mp hmem
    rw [← hc]
    exact h u hu
  | borrar id confirmacion =>
    intro t ht
    exact h t ((borrarTarea_sublist lower id confirmacion tareas).subset ht)

theorem ejecutarTodas_costos (lower : String → String) (ops : List Operacion)
    (tareas : List Tarea)
    (h : ∀ t ∈ tareas, (∃ neg, t.costo = .inf neg) ∨ t.costo.esDecimal = true) :
    ∀ t ∈ ejecutarTodas lower ops tareas,
      (∃ neg, t.costo = .inf neg) ∨ t.costo.esDecimal = true := by
  induction ops generalizing tareas with
  | nil => exact h
  | cons op ops ih => exact ih _ (ejecutar_costos lower op tareas h)

set_option maxRecDepth 100000 in
/-- C8 as stated fails: the collection that `agregarTarea` builds for the
cost text `Infinity` is written with `null` for the cost and is read back
with the cost `null`, not the number; and when the write throws, the file
stays as it was (here absent) and the load leaves the empty array of the
start. -/
theorem cargar_guardar_infinito :
    agregarTarea "t" "a" "" "" "Infinity" "1" [] =
      [⟨1, "a", "", 1, 1, "t", "", "t", .inf false⟩] ∧
    cargarTareas false
        (guardarTareas false (coleccion (agregarTarea "t" "a" "" "" "Infinity" "1" [])) none)
        (.arr []) =
      .arr [.obj [("id", .num (.fin 1)), ("titulo", .str "a"), ("descripcion", .str ""),
        ("estado", .num (.fin 1)), ("dificultad", .num (.fin 1)), ("fechaCreacion", .str "t"),
        ("fechaVencimiento", .str ""), ("fechaEdicion", .str "t"), ("costo", .nulo)]] ∧
    cargarTareas false
        (guardarTareas false (coleccion (agregarTarea "t" "a" "" "" "Infinity" "1" [])) none)
        (.arr []) ≠
      coleccion (agregarTarea "t" "a" "" "" "Infinity" "1" []) ∧
    cargarTareas false
        (guardarTareas true (coleccion (agregarTarea "t" "a" "" "" "2" "1" [])) none)
        (.arr []) = .arr [] ∧
    coleccion (agregarTarea "t" "a" "" "" "2" "1" []) ≠ .arr [] := by
  have h1 : agregarTarea "t" "a" "" "" "Infinity" "1" [] =
      [⟨1, "a", "", 1, 1, "t", "", "t", .inf false⟩] := by decide
  have h2 : cargarTareas false
      (guardarTareas false (coleccion [⟨1, "a", "", 1, 1, "t", "", "t", .inf false⟩]) none)
      (.arr []) =
      .arr [.obj [("id", .num (.fin 1)), ("titulo", .str "a"), ("descripcion", .str ""),
        ("estado", .num (.fin 1)), ("dificultad", .num (.fin 1)), ("fechaCreacion", .str "t"),
        ("fechaVencimiento", .str ""), ("fechaEdicion", .str "t"), ("costo", .nulo)]] := by
    rfl
  have h3 : agregarTarea "t" "a" "" "" "2" "1" [] =
      [⟨1, "a", "", 1, 1, "t", "", "t", .fin 2⟩] := by decide
  refine ⟨h1, ?_, ?_, ?_, ?_⟩
  · rw [h1, h2]
  · rw [h1, h2]
    simp [coleccion, Tarea.aValor]
  · rfl
  · rw [h3]
    simp [coleccion]

/-- C8 amended: when the write and the read succeed, `guardarTareas`
followed by `cargarTareas` gives back the collection, task by task and field
by field, for every collection in which every cost is a finite number (its
value a decimal fraction, as the value of every finite JavaScript number
is), whatever the file held before and whatever `tareas` held at the load;
so it does for every collection that add, edit and delete operations build
from the empty collection, when every cost in it is finite. -/
theorem cargar_guardar (tareas : List Tarea) (archivo : Option String) (previo : Valor) :
    ((∀ t ∈ tareas, t.costo.esDecimal = true) →
      cargarTareas false (guardarTareas false (coleccion tareas) archivo) previo =
        coleccion tareas) ∧
    (∀ (lower : String → String) (ops : List Operacion),
      tareas = ejecutarTodas lower ops [] → (∀ t ∈ tareas, t.costo.esFinito = true) →
      cargarTareas false (guardarTareas false (coleccion tareas) archivo) previo =
        coleccion tareas) := by
  have hmain : (∀ t ∈ tareas, t.costo.esDecimal = true) →
      cargarTareas false (guardarTareas false (coleccion tareas) archivo) previo =
        coleccion tareas := by
    intro h
    have hp := parse_stringify tareas h
    unfold cargarTareas guardarTareas
    simp only [Bool.false_eq_true, if_false, hp]
    rfl
  refine ⟨hmain, ?_⟩
  intro lower ops hops hfin
  apply hmain
  intro t ht
  have hinv := ejecutarTodas_costos lower ops [] (by simp) t (by rw [← hops]; exact ht)
  rcases hinv with ⟨neg, hneg⟩ | hdec
  · have := hfin t ht
    rw [hneg] at this
    simp [JSNumber.esFinito] at this
  · exact hdec

/-- Witness of C8 amended: two tasks, one with quotation marks and a line
break in its title and a negative cost; and the collection left by two adds
(costs `2.5` and `-5`), an edit and a confirmed deletion. -/
theorem cargar_guardar_witness :
    (∀ t ∈ [(⟨1, "Buy \"milk\"\n", "", 1, 1, "t", "", "t", .fin 2⟩ : Tarea),
        ⟨2, "Walk dog", "x", 3, 2, "t", "1/1", "u", .fin (-5)⟩],
      t.costo.esDecimal = true) ∧
    cargarTareas false
        (guardarTareas false
          (coleccion [⟨1, "Buy \"milk\"\n", "", 1, 1, "t", "", "t", .fin 2⟩,
            ⟨2, "Walk dog", "x", 3, 2, "t", "1/1", "u", .fin (-5)⟩]) none) (.arr []) =
      coleccion [⟨1, "Buy \"milk\"\n", "", 1, 1, "t", "", "t", .fin 2⟩,
        ⟨2, "Walk dog", "x", 3, 2, "t", "1/1", "u", .fin (-5)⟩] ∧
    (∀ t ∈ ejecutarTodas toLowerCaseASCII
        [.agregar ⟨"t1", "Buy milk", "", "", "2.5", "1"⟩,
          .agregar ⟨"t2", "Walk dog", "", "", "-5", "3"⟩, .editar "t3" 1 "" "two" "2",
          .borrar 2 "S"] [],
      t.costo.esFinito = true) ∧
    cargarTareas false
        (guardarTareas false
          (coleccion (ejecutarTodas toLowerCaseASCII
            [.agregar ⟨"t1", "Buy milk", "", "", "2.5", "1"⟩,
              .agregar ⟨"t2", "Walk dog", "", "", "-5", "3"⟩, .editar "t3" 1 "" "two" "2",
              .borrar 2 "S"] [])) (some "old")) (.arr []) =
      coleccion (ejecutarTodas toLowerCaseASCII
        [.agregar ⟨"t1", "Buy milk", "", "", "2.5", "1"⟩,
          .agregar ⟨"t2", "Walk dog", "", "", "-5", "3"⟩, .editar "t3" 1 "" "two" "2",
          .borrar 2 "S"] []) :=
  ⟨by decide, (cargar_guardar _ _ _).1 (by decide), by decide,
    (cargar_guardar _ _ _).2 toLowerCaseASCII _ rfl (by decide)⟩

/-- After `n` adds on a collection whose greatest identifier is `k` (or that
is empty, with `k = 0`) and whose identifiers are at least 1, the greatest
identifier is `k + n`, as long as `k + n ≤ 2^53`. -/
theorem agregar_maximo (lower : String → String) (r : RespuestasAgregar) (n : Nat)
    (tareas : List Tarea) (k : Nat) (hk : k + n ≤ 2 ^ 53)
    (h : (tareas = [] ∧ k = 0) ∨
      ((∃ t ∈ tareas, t.id = k) ∧ ∀ u ∈ tareas, 1 ≤ u.id ∧ u.id ≤ k)) :
    (ejecutarTodas lower (List.replicate n (.agregar r)) tareas = [] ∧ k + n = 0) ∨
      ((∃ t ∈ ejecutarTodas lower (List.replicate n (.agregar r)) tareas,
          t.id = ((k + n : Nat) : Int)) ∧
        ∀ u ∈ ejecutarTodas lower (List.replicate n (.agregar r)) tareas,
          1 ≤ u.id ∧ u.id ≤ ((k + n : Nat) : Int)) := by
  induction n generalizing tareas k with
  | zero => simpa [ejecutarTodas] using h
  | succ n ih =>
    have hk2 : (k : Int) < 2 ^ 53 := by
      have : k < 2 ^ 53 := by omega
      exact_mod_cast this
    have hstep : (∃ t ∈ ejecutar lower (.agregar r) tareas, t.id = ((k + 1 : Nat) : Int)) ∧
        ∀ u ∈ ejecutar lower (.agregar r) tareas, 1 ≤ u.id ∧ u.id ≤ ((k + 1 : Nat) : Int) := by
      simp only [ejecutar, agregarTarea_eq]
      rcases h with ⟨h1, h2⟩ | ⟨⟨t, ht, hid⟩, hall⟩
      · subst h1 h2
        simp [nuevaTarea, nuevoId]
      · have hnew : nuevoId tareas = (k : Int) + 1 := by
          cases tareas with
          | nil => simp at ht
          | cons u us =>
            have hb : ∀ t ∈ u :: us, -(2 : Int) ^ 53 < t.id ∧ t.id < 2 ^ 53 := by
              intro v hv
              have := hall v hv
              exact ⟨by omega, by omega⟩
            have hmem := mathMax_mem u.id (us.map (fun t => t.id))
            have hmem2 : mathMax u.id (us.map (fun t => t.id)) ∈
                (u :: us).map (fun t => t.id) := by
              simpa using hmem
            obtain ⟨w, hw, hwid⟩ := List.mem_map.mp hmem2
            have hle : t.id ≤ mathMax u.id (us.map (fun t => t.id)) := by
              apply mathMax_ge
              have := List.mem_map_of_mem (fun t => t.id) ht
              simpa using this
            have hw2 := hall w hw
            rw [nuevoId_cons u us hb]
            omega
        refine ⟨⟨_, List.mem_append_right _ (List.mem_singleton.mpr rfl), ?_⟩, ?_⟩
        · simp only [nuevaTarea, hnew]
          push_cast
          rfl
        · intro v hv
          rcases List.mem_append.mp hv with hv1 | hv1
          · have := hall v hv1
            exact ⟨this.1, by push_cast; omega⟩
          · simp only [List.mem_singleton] at hv1
            subst hv1
            simp only [nuevaTarea, hnew]
            exact ⟨by omega, by push_cast; omega⟩
    have := ih (ejecutar lower (.agregar r) tareas) (k + 1) (by omega) (Or.inr hstep)
    have he : k + 1 + n = k + (n + 1) := by omega
    rw [he] at this
    simpa [List.replicate_succ, ejecutarTodas] using this

/-- The bound of C10 amended cannot be dropped: after `2^53` adds from the
empty collection the next add assigns an identifier that a task of the
collection holds. -/
theorem cota_necesaria (lower : String → String) (r : RespuestasAgregar) :
    ∃ t ∈ ejecutarTodas lower (List.replicate (2 ^ 53) (.agregar r)) [],
      t.id = nuevoId (ejecutarTodas lower (List.replicate (2 ^ 53) (.agregar r)) []) := by
  have h := agregar_maximo lower r (2 ^ 53) [] 0 (by omega) (Or.inl ⟨rfl, rfl⟩)
  rcases h with ⟨_, h0⟩ | ⟨⟨t, ht, hid⟩, hall⟩
  · exact absurd h0 (by norm_num)
  · refine ⟨t, ht, ?_⟩
    generalize ejecutarTodas lower (List.replicate (2 ^ 53) (.agregar r)) [] = s at ht hall
    cases s with
    | nil => simp at ht
    | cons u us =>
      have hmem := mathMax_mem u.id (us.map (fun t => t.id))
      have hmem2 : mathMax u.id (us.map (fun t => t.id)) ∈ (u :: us).map (fun t => t.id) := by
        simpa using hmem
      obtain ⟨w, hw, hwid⟩ := List.mem_map.mp hmem2
      have hle : t.id ≤ mathMax u.id (us.map (fun t => t.id)) := by
        apply mathMax_ge
        have := List.mem_map_of_mem (fun t => t.id) ht
        simpa using this
      have hw2 := hall w hw
      have hmax : mathMax u.id (us.map (fun t => t.id)) = 9007199254740992 := by
        have h1 : ((0 + 2 ^ 53 : Nat) : Int) = 9007199254740992 := by norm_num
        rw [h1] at hid hw2
        omega
      have h1 : ((0 + 2 ^ 53 : Nat) : Int) = 9007199254740992 := by norm_num
      rw [h1] at hid
      simp only [nuevoId, List.map_cons, hmax, hid]
      decide

/-! ## Evaluations of the built-ins -/

/-- The sum `x + 1` of doubles around `2^53` and `2^54`. -/
theorem sumaUno_valores :
    sumaUno 0 = 1 ∧ sumaUno (-1) = 0 ∧ sumaUno 41 = 42 ∧
    sumaUno 9007199254740991 = 9007199254740992 ∧
    sumaUno 9007199254740992 = 9007199254740992 ∧
    sumaUno 9007199254740994 = 9007199254740996 ∧
    sumaUno 9007199254740996 = 9007199254740996 ∧
    sumaUno 18014398509481982 = 18014398509481984 ∧
    sumaUno 18014398509481984 = 18014398509481984 ∧
    sumaUno 18014398509481988 = 18014398509481988 ∧
    sumaUno (-9007199254740992) = -9007199254740991 ∧
    sumaUno (-9007199254740994) = -9007199254740992 ∧
    sumaUno (-9007199254740996) = -9007199254740996 ∧
    sumaUno (-18014398509481984) = -18014398509481984 := by
  decide

/-- The number `parseInt` reads. -/
theorem parseInt_valores :
    parseInt "" = none ∧ parseInt "abc" = none ∧ parseInt "-" = none ∧
    parseInt "2" = some 2 ∧ parseInt "12px" = some 12 ∧ parseInt " \t\n-7" = some (-7) ∧
    parseInt "+3.9" = some 3 ∧ parseInt "0x1F" = some 31 ∧ parseInt "-0X1f" = some (-31) ∧
    parseInt "0x" = none ∧ parseInt "1e3" = some 1 ∧ parseInt "007" = some 7 ∧
    parseInt "\u00a0\ufeff5" = some 5 ∧ parseInt "4 2" = some 4 := by
  decide

/-- The number `parseFloat` reads. -/
theorem parseFloat_valores :
    parseFloat "" = .nan ∧ parseFloat "abc" = .nan ∧ parseFloat "." = .nan ∧
    parseFloat "e5" = .nan ∧ parseFloat "-" = .nan ∧
    parseFloat "2" = .fin 2 ∧ parseFloat "  2.50e1x" = .fin 25 ∧ parseFloat "-5" = .fin (-5) ∧
    parseFloat "+2" = .fin 2 ∧ parseFloat "5." = .fin 5 ∧ parseFloat "5.e2" = .fin 500 ∧
    parseFloat "-.5e1" = .fin (-5) ∧ parseFloat "1E+3" = .fin 1000 ∧
    parseFloat "0x10" = .fin 0 ∧ parseFloat "1e" = .fin 1 ∧ parseFloat "1_000" = .fin 1 ∧
    parseFloat ".5" = .fin (mkRat 1 2) ∧ parseFloat "3.14abc" = .fin (mkRat 157 50) ∧
    parseFloat "25e-3" = .fin (mkRat 1 40) ∧
    parseFloat "Infinity" = .inf false ∧ parseFloat "+Infinityx" = .inf false ∧
    parseFloat "-Infinity" = .inf true ∧ parseFloat "infinity" = .nan := by
  decide

/-- The classification of texts as ASCII. -/
theorem esASCII_valores :
    esASCII "" = true ∧ esASCII "Buy MILK 123 ~" = true ∧ esASCII "ma\u00f1ana" = false ∧
    esASCII "\u212a" = false := by
  decide

/-- The text of a number in each layout of `Number.prototype.toString`. -/
theorem numeroATexto_valores :
    numeroATexto 0 = "0".data ∧ numeroATexto 2 = "2".data ∧ numeroATexto (-5) = "-5".data ∧
    numeroATexto 1200 = "1200".data ∧
    numeroATexto 100000000000000000000 = "100000000000000000000".data ∧
    numeroATexto 1000000000000000000000 = "1e+21".data ∧
    numeroATexto 123456789012345680000000 = "1.2345678901234568e+23".data ∧
    numeroATexto (mkRat 5 2) = "2.5".data ∧ numeroATexto (mkRat (-123) 1000) = "-0.123".data ∧
    numeroATexto (mkRat 123456789 10) = "12345678.9".data ∧
    numeroATexto (mkRat 1 1000000) = "0.000001".data ∧
    numeroATexto (mkRat 1 10000000) = "1e-7".data ∧
    numeroATexto (mkRat 123 1000000000) = "1.23e-7".data ∧
    numeroATexto (mkRat (-3) 80000000000) = "-3.75e-11".data := by
  decide

set_option maxRecDepth 100000 in
/-- The text that `JSON.stringify` writes for nested values, for the
characters that are escaped and for numbers that are not finite. -/
theorem stringify_valores :
    JSON.stringify (.arr []) = "[]" ∧ JSON.stringify (.obj []) = "\x7b\x7d" ∧
    JSON.stringify (.str "") = "\"\"" ∧ JSON.stringify (.num (.fin 7)) = "7" ∧
    JSON.stringify
        (.obj [("a", .arr [.num (.fin 1), .bool true, .bool false, .nulo, .arr [], .obj []]),
          ("b", .str "x\"y\\z\n\t\r\x08\x0c\x01\x1f\u00e9/"), ("c", .num .nan),
          ("d", .num (.inf true)), ("e", .num (.fin (mkRat 5 2)))]) =
      "\x7b\n  \"a\": [\n    1,\n    true,\n    false,\n    null,\n    [],\n    \x7b\x7d\n  ],\n  \"b\": \"x\\\"y\\\\z\\n\\t\\r\\b\\f\\u0001\\u001f\u00e9/\",\n  \"c\": null,\n  \"d\": null,\n  \"e\": 2.5\n\x7d" := by
  refine ⟨rfl, rfl, rfl, rfl, rfl⟩

set_option maxRecDepth 100000 in
/-- The value that `JSON.parse` reads: white space, literals, nested arrays
and objects, escapes and surrogate pairs, numbers with fraction and
exponent, index fields first, a repeated field set again; and texts that
are not JSON. -/
theorem parse_valores :
    JSON.parse " \x7b\"b\": 1, \"10\": [true, false, null, [], \x7b \x7d], \"2\": \"\\u0041\\ud83d\\ude00\\/\\b\\f\\n\", \"b\": -1.5e2, \"n\": 0.25E-1 \x7d\r\n\t" =
      some (.obj [("2", .str "A😀/\x08\x0c\n"),
        ("10", .arr [.bool true, .bool false, .nulo, .arr [], .obj []]),
        ("b", .num (.fin (-150))), ("n", .num (.fin (mkRat 1 40)))]) ∧
    JSON.parse "[[1, [2]], \"\\ud83d\", 0, -0.5]" =
      some (.arr [.arr [.num (.fin 1), .arr [.num (.fin 2)]], .str "\ufffd", .num (.fin 0),
        .num (.fin (mkRat (-1) 2))]) ∧
    JSON.parse "null" = some .nulo ∧
    JSON.parse "" = none ∧ JSON.parse "01" = none ∧ JSON.parse "1." = none ∧
    JSON.parse "1e" = none ∧ JSON.parse "-" = none ∧ JSON.parse ".5" = none ∧
    JSON.parse "[1,]" = none ∧ JSON.parse "[1 2]" = none ∧ JSON.parse "[1" = none ∧
    JSON.parse "\x7b\"a\":1,\x7d" = none ∧ JSON.parse "\x7ba:1\x7d" = none ∧
    JSON.parse "\"\\x\"" = none ∧ JSON.parse "\"a\nb\"" = none ∧ JSON.parse "\"a" = none ∧
    JSON.parse "tru" = none ∧ JSON.parse "1 2" = none ∧ JSON.parse "Infinity" = none := by
  refine ⟨rfl, rfl, rfl, rfl, rfl, rfl, rfl, rfl, rfl, rfl, rfl, rfl, rfl, rfl, rfl, rfl, rfl, rfl,
    rfl, rfl⟩

/-- The value of `tareas` after `cargarTareas` in each branch: no file, a
failed read, a text that is not JSON, the value `null`, an array, another
value; and the file after `guardarTareas`. -/
theorem cargarTareas_valores :
    cargarTareas false none (.arr [.nulo]) = .arr [.nulo] ∧
    cargarTareas true (some "[1]") (.arr [.nulo]) = .arr [] ∧
    cargarTareas false (some "[1") (.arr [.nulo]) = .arr [] ∧
    cargarTareas false (some "null") (.arr [.nulo]) = .arr [] ∧
    cargarTareas false (some "[1]") (.arr [.nulo]) = .arr [.num (.fin 1)] ∧
    cargarTareas false (some "7") (.arr [.nulo]) = .num (.fin 7) ∧
    guardarTareas true (.arr []) (some "old") = some "old" ∧
    guardarTareas false (.arr []) (some "old") = some "[]" := by
  refine ⟨rfl, rfl, rfl, rfl, rfl, rfl, rfl, rfl⟩

end GestorTareas
